import Mathlib

/-!
Shallow embedding of the farm-machinery scheduling core in
`src/app/api/schedule/route.ts` (a Next.js API route).

Modelling conventions:
* JavaScript numbers are modelled as exact rationals (`ℚ`).  All arithmetic
  in the source (addition, subtraction, multiplication, division, floor,
  ceil, round, min, max) is exact on the values the program manipulates,
  with one exception: `Math.sqrt`.  `Math.sqrt` is modelled by `jsSqrt`,
  a monotone rational under-approximation of the real square root with
  absolute error below `2 ^ (-12)`; every comparison the verified claims
  depend on has a margin far above that error.
* The special values `NaN` and `±Infinity` can reach the two result fields
  `efficiency` (via `0 / 0` when there are no machines) and `totalTime`
  (via `Math.max()` of an empty list).  Those two computations are
  therefore modelled in the type `JsNum`, which represents an IEEE-style
  value: a finite rational, `NaN`, or a signed infinity.  Negative zero is
  not modelled (no computation in this program distinguishes it).
* JavaScript `Map` / `Set` objects (used with node keys in the road-network
  builder and the path finder) iterate in insertion order; they are
  modelled as association lists in insertion order.  Node object identity
  coincides with coordinate identity because the builder deduplicates
  nodes by their coordinate key string.
-/

attribute [local semireducible] Rat.add Rat.mul Rat.inv Rat.sub

namespace Farm

/-- Structural integer square root (largest `s` with `s * s ≤ n`), used by
`jsSqrt`.  The fuel argument only bounds the recursion depth; `n + 1` units
are always enough since the argument quarters at each step. -/
def isqrtAux : ℕ → ℕ → ℕ
  | 0, _ => 0
  | fuel + 1, n =>
    if n < 2 then n
    else
      let s := 2 * isqrtAux fuel (n / 4)
      if (s + 1) * (s + 1) ≤ n then s + 1 else s

/-- Integer square root by binary recursion. -/
def isqrt (n : ℕ) : ℕ := isqrtAux (n + 1) n

/-- A 2-D point with rational coordinates. -/
structure Point where
  x : ℚ
  y : ℚ
deriving DecidableEq, Repr

/-- A rectangular field, `interface Field` in the source. -/
structure Field where
  id : ℤ
  x : ℚ
  y : ℚ
  width : ℚ
  height : ℚ
deriving DecidableEq, Repr

/-- JavaScript `Math.round`: round half toward positive infinity. -/
def jsRound (q : ℚ) : ℚ := Rat.floor (q + 1/2)

/-- `snapToGrid` from the source: round both coordinates. -/
def snapToGrid (position : Point) : Point :=
  { x := jsRound position.x, y := jsRound position.y }

/-- Model of `Math.sqrt` on the nonnegative rationals: a monotone rational
under-approximation of the real square root, accurate to `2 ^ (-6)`
(the scale factor 4096 is `4 ^ 6` and 64 is `2 ^ 6`); every comparison the
verified claims depend on has a margin far above that error.  (Negative
inputs, which would give `NaN` in JavaScript, never occur in this program:
the only square-root argument is a sum of two squares.) -/
def jsSqrt (q : ℚ) : ℚ :=
  mkRat (isqrt (Rat.floor (q * 4096)).toNat) 64

/-- `calculateDistance` from the source:
`Math.sqrt(Math.pow(x2 - x1, 2) + Math.pow(y2 - y1, 2))`; the squares
`Math.pow(d, 2)` are written `d * d`. -/
def calculateDistance (point1 point2 : Point) : ℚ :=
  jsSqrt ((point2.x - point1.x) * (point2.x - point1.x) +
    (point2.y - point1.y) * (point2.y - point1.y))

/-- `isPointInsideAnyField` from the source: strictly inside the rectangle
of some field of the list. -/
def isPointInsideAnyField (point : Point) (fields : List Field) : Bool :=
  fields.any fun field =>
    decide (point.x > field.x) && decide (point.x < field.x + field.width) &&
    decide (point.y > field.y) && decide (point.y < field.y + field.height)

/-- `doesPathCrossFields` from the source: sample 9 interior points of the
segment (indices 1..9 of 10 steps) and test each against every field. -/
def doesPathCrossFields (from_ to_ : Point) (fields : List Field) : Bool :=
  (List.range 10).any fun i =>
    if i = 0 then false
    else
      let t : ℚ := i / 10
      let checkPoint : Point :=
        { x := from_.x + (to_.x - from_.x) * t, y := from_.y + (to_.y - from_.y) * t }
      isPointInsideAnyField checkPoint fields

/-- A road-network node.  In the source a `RoadNode` carries a list of
references to adjacent nodes; since the builder deduplicates nodes by
coordinates, adjacency is modelled by the coordinates of the neighbours.
The string `id` field of the source (the coordinate key) is omitted. -/
structure RoadNode where
  x : ℚ
  y : ℚ
  connections : List Point
deriving DecidableEq, Repr

/-- Coordinates of a road node as a `Point`. -/
def RoadNode.pt (n : RoadNode) : Point := { x := n.x, y := n.y }

/-- The ascending values taken by a JavaScript loop
`for (let v = lo; v <= hi; v += 10)`, in exact rational arithmetic. -/
def gridCoords (lo hi : ℚ) : List ℚ :=
  if lo ≤ hi then
    (List.range ((Rat.floor ((hi - lo) / 10)).toNat + 1)).map fun i => lo + 10 * i
  else []

/-- The four corners of a field, in the order the source lists them. -/
def fieldCorners (field : Field) : List Point :=
  [ { x := field.x, y := field.y },
    { x := field.x + field.width, y := field.y },
    { x := field.x, y := field.y + field.height },
    { x := field.x + field.width, y := field.y + field.height } ]

/-- The grid phase of `generateFieldRoadNetwork`: grid points of the padded
bounding box that are not strictly inside any field, in loop order. -/
def networkGridNodes (fields : List Field) (baseStation : Point) : List Point :=
  let minX := (fields.foldl (fun acc f => min acc f.x) baseStation.x) - 20
  let maxX := (fields.foldl (fun acc f => max acc (f.x + f.width)) baseStation.x) + 20
  let minY := (fields.foldl (fun acc f => min acc f.y) baseStation.y) - 20
  let maxY := (fields.foldl (fun acc f => max acc (f.y + f.height)) baseStation.y) + 20
  (gridCoords minX maxX).flatMap fun x =>
    (gridCoords minY maxY).filterMap fun y =>
      let point : Point := { x := x, y := y }
      if isPointInsideAnyField point fields then none else some point

/-- The base-station phase of `generateFieldRoadNetwork`: append the base
station when it is outside every field and not already a grid node. -/
def networkBaseNodes (fields : List Field) (baseStation : Point) : List Point :=
  let gridNodes := networkGridNodes fields baseStation
  if !isPointInsideAnyField baseStation fields && !gridNodes.contains baseStation then
    gridNodes ++ [baseStation]
  else gridNodes

/-- First phase of `generateFieldRoadNetwork`: the node list (without
connections), in insertion order: grid points outside every field, then the
base station if outside every field and not already present, then every
field corner not already present.  Corners are added without an
inside-any-field test, exactly as in the source. -/
def roadNetworkNodes (fields : List Field) (baseStation : Point) : List Point :=
  fields.foldl (fun nodes field =>
    (fieldCorners field).foldl (fun nodes corner =>
      if nodes.contains corner then nodes else nodes ++ [corner]) nodes)
    (networkBaseNodes fields baseStation)

/-- `generateFieldRoadNetwork` from the source: build the node list, then
connect every ordered pair of distinct nodes whose distance is at most
`1.5 * 10` and whose straight segment does not cross a field. -/
def generateFieldRoadNetwork (fields : List Field) (baseStation : Point) : List RoadNode :=
  let nodes := roadNetworkNodes fields baseStation
  nodes.map fun node =>
    { x := node.x, y := node.y,
      connections := nodes.filter fun other =>
        other ≠ node && decide (calculateDistance node other ≤ 10 * (3/2)) &&
        !doesPathCrossFields node other fields }

/-- One boustrophedon row of `generateContinuousFieldWorkPath` (the body of
its `for` loop): row `i`, scanned left to right for even `i` and right to
left for odd `i`, with a partial first row when resuming mid-row. -/
def coverageRow (field : Field) (startPercentage : ℚ) (totalRows startRow i : ℤ) :
    List Point :=
  let y : ℚ := field.y + ((i : ℚ) * field.height) / (totalRows : ℚ)
  if i % 2 = 0 then
    (if i = startRow ∧ startPercentage > 0 then
      [{ x := field.x + (startPercentage * totalRows - startRow) * field.width, y := y }]
     else [{ x := field.x, y := y }]) ++ [{ x := field.x + field.width, y := y }]
  else
    (if i = startRow ∧ startPercentage > 0 then
      [{ x := field.x + field.width - (startPercentage * totalRows - startRow) * field.width,
         y := y }]
     else [{ x := field.x + field.width, y := y }]) ++ [{ x := field.x, y := y }]

/-- `generateContinuousFieldWorkPath` from the source: boustrophedon rows of
5-unit spacing, resumable from a completed percentage. -/
def generateContinuousFieldWorkPath (field : Field) (startPercentage workPercentage : ℚ) :
    List Point :=
  let totalRows : ℤ := max 1 (Rat.floor (field.height / 5))
  let startRow : ℤ := Rat.floor (startPercentage * totalRows)
  let endRow : ℤ := min totalRows (Rat.ceil ((startPercentage + workPercentage) * totalRows))
  (List.range (endRow - startRow).toNat).flatMap fun k =>
    coverageRow field startPercentage totalRows startRow (startRow + k)

/-- An IEEE-style JavaScript number: a finite rational, `NaN`, `+Infinity`
or `-Infinity`.  Used only where the source can produce a non-finite value
(`calculateEfficiency` and the `totalTime` field). -/
inductive JsNum where
  | num (q : ℚ)
  | nan
  | inf
  | ninf
deriving DecidableEq, Repr

namespace JsNum

/-- Addition of JavaScript numbers. -/
def add : JsNum → JsNum → JsNum
  | num a, num b => num (a + b)
  | nan, _ => nan
  | _, nan => nan
  | inf, ninf => nan
  | ninf, inf => nan
  | inf, _ => inf
  | _, inf => inf
  | ninf, _ => ninf
  | _, ninf => ninf

/-- Subtraction of JavaScript numbers. -/
def sub : JsNum → JsNum → JsNum
  | num a, num b => num (a - b)
  | nan, _ => nan
  | _, nan => nan
  | inf, inf => nan
  | ninf, ninf => nan
  | inf, _ => inf
  | _, inf => ninf
  | ninf, _ => ninf
  | _, ninf => inf

/-- Multiplication of JavaScript numbers (0 times an infinity is `NaN`). -/
def mul : JsNum → JsNum → JsNum
  | num a, num b => num (a * b)
  | nan, _ => nan
  | _, nan => nan
  | inf, inf => inf
  | inf, ninf => ninf
  | ninf, inf => ninf
  | ninf, ninf => inf
  | inf, num b => if b = 0 then nan else if b > 0 then inf else ninf
  | num a, inf => if a = 0 then nan else if a > 0 then inf else ninf
  | ninf, num b => if b = 0 then nan else if b > 0 then ninf else inf
  | num a, ninf => if a = 0 then nan else if a > 0 then ninf else inf

/-- Division of JavaScript numbers (`0 / 0` is `NaN`, `a / 0` is a signed
infinity for `a ≠ 0`; negative zero is not modelled). -/
def div : JsNum → JsNum → JsNum
  | num a, num b =>
      if b = 0 then (if a = 0 then nan else if a > 0 then inf else ninf)
      else num (a / b)
  | nan, _ => nan
  | _, nan => nan
  | inf, inf => nan
  | inf, ninf => nan
  | ninf, inf => nan
  | ninf, ninf => nan
  | inf, num b => if b < 0 then ninf else inf
  | ninf, num b => if b < 0 then inf else ninf
  | num _, inf => num 0
  | num _, ninf => num 0

/-- JavaScript `Math.max` of two values: `NaN` if either argument is `NaN`. -/
def max2 : JsNum → JsNum → JsNum
  | nan, _ => nan
  | _, nan => nan
  | inf, _ => inf
  | _, inf => inf
  | ninf, b => b
  | a, ninf => a
  | num a, num b => num (max a b)

end JsNum

/-- JavaScript `Math.max(...list)`: `-Infinity` on the empty list. -/
def jsMaxList : List ℚ → JsNum
  | [] => JsNum.ninf
  | h :: t => JsNum.num (t.foldl max h)

/-- IEEE-style strict less-than on JavaScript numbers: any comparison with
`NaN` is false. -/
def JsNum.lt : JsNum → JsNum → Bool
  | JsNum.nan, _ => false
  | _, JsNum.nan => false
  | JsNum.num a, JsNum.num b => decide (a < b)
  | JsNum.inf, _ => false
  | _, JsNum.inf => true
  | JsNum.ninf, JsNum.ninf => false
  | JsNum.ninf, _ => true
  | JsNum.num _, JsNum.ninf => false

/-- JS `Map.set`: overwrite an existing key in place, else append
(insertion order is preserved, as for a JavaScript `Map`). -/
def mapSet {α : Type} (m : List (Point × α)) (k : Point) (v : α) : List (Point × α) :=
  if m.any (fun kv => kv.1 = k) then m.map (fun kv => if kv.1 = k then (k, v) else kv)
  else m ++ [(k, v)]

/-- JS `Map.get`: the value at a key, if present. -/
def mapGet? {α : Type} (m : List (Point × α)) (k : Point) : Option α :=
  (m.find? (fun kv => decide (kv.1 = k))).map (fun kv => kv.2)

/-- JavaScript `map.get(k) || Infinity`: `undefined` and the falsy number
values `0` and `NaN` are replaced by `Infinity`.  This is the quirk of the
source (it reads the stored distance `0` of the start node as `Infinity`)
that makes the Dijkstra scan never select any node. -/
def orInf : Option JsNum → JsNum
  | some (JsNum.num q) => if q = 0 then JsNum.inf else JsNum.num q
  | some JsNum.nan => JsNum.inf
  | some v => v
  | none => JsNum.inf

/-- The body of the nearest-node `reduce` of `findShortestPath`: keep
whichever of the accumulator and the next node is strictly closer to `p`
(the accumulator is destructured to keep evaluation shallow). -/
def closerOf (p : Point) (closest node : RoadNode) : RoadNode :=
  match closest with
  | ⟨cx, cy, cconn⟩ =>
    if calculateDistance p node.pt < calculateDistance p ⟨cx, cy⟩ then
      node
    else ⟨cx, cy, cconn⟩

/-- JS `array.reduce` without an initial value, which throws on an empty
array: modelled as `none` on the empty list.  Used for the nearest-node
snapping of `findShortestPath`. -/
def closestNode (p : Point) : List RoadNode → Option RoadNode
  | [] => none
  | h :: t => some (t.foldl (closerOf p) h)

/-- One step of the minimum-distance scan of the Dijkstra loop (the
accumulator is destructured to keep evaluation shallow). -/
def scanStep (distances : List (Point × JsNum)) (acc : Option RoadNode × JsNum)
    (node : RoadNode) : Option RoadNode × JsNum :=
  match acc with
  | (cur, minDistance) =>
    let dist := orInf (mapGet? distances node.pt)
    if JsNum.lt dist minDistance then (some node, dist) else (cur, minDistance)

/-- The minimum-distance scan at the top of the Dijkstra loop, with the
falsy-lookup quirk applied to every stored distance. -/
def scanMin (unvisited : List RoadNode) (distances : List (Point × JsNum)) :
    Option RoadNode × JsNum :=
  unvisited.foldl (scanStep distances) (none, JsNum.inf)

/-- The `while (unvisited.size > 0)` loop of `findShortestPath`.  The
structural `fuel` argument (the caller passes the network size) bounds the
recursion; each JavaScript iteration removes one node from `unvisited`, so
the fuel is never exhausted before the loop's own exits fire. -/
def dijkstraLoop (endNode : RoadNode) :
    ℕ → List RoadNode → List (Point × JsNum) → List (Point × Option Point) →
    List (Point × JsNum) × List (Point × Option Point)
  | 0, _, distances, previous => (distances, previous)
  | fuel + 1, unvisited, distances, previous =>
    if unvisited.isEmpty then (distances, previous)
    else
      match (scanMin unvisited distances).1 with
      | none => (distances, previous)
      | some current =>
        if current = endNode then (distances, previous)
        else
          let unvisited' := unvisited.erase current
          let dp := current.connections.foldl
            (fun (dp : List (Point × JsNum) × List (Point × Option Point)) neighbor =>
              if unvisited'.any (fun n => n.pt = neighbor) then
                let alt := JsNum.add (orInf (mapGet? dp.1 current.pt))
                  (JsNum.num (calculateDistance current.pt neighbor))
                if JsNum.lt alt (orInf (mapGet? dp.1 neighbor)) then
                  (mapSet dp.1 neighbor alt, mapSet dp.2 neighbor (some current.pt))
                else dp
              else dp)
            (distances, previous)
          dijkstraLoop endNode fuel unvisited' dp.1 dp.2

/-- The path-reconstruction loop of `findShortestPath`: walk predecessor
links from the end node, prepending each visited coordinate.  The stored
predecessors are all `null` in practice (the Dijkstra loop never relaxes an
edge), so the walk stops after one step; the fuel argument makes the
recursion total regardless. -/
def reconstructPath (previous : List (Point × Option Point)) :
    ℕ → Option Point → List Point → List Point
  | 0, _, path => path
  | _ + 1, none, path => path
  | fuel + 1, some current, path =>
      reconstructPath previous fuel (mapGet? previous current).join (current :: path)

/-- `findShortestPath` from the source.  On an empty network the source
throws (reduce of an empty array with no initial value); that unreachable
case is modelled by the empty list. -/
def findShortestPath (start end_ : Point) (roadNetwork : List RoadNode) : List Point :=
  match closestNode start roadNetwork, closestNode end_ roadNetwork with
  | some startNode, some endNode =>
    -- the initialisation loop adds one entry per node (nodes are distinct)
    let distances0 := roadNetwork.map (fun node => (node.pt, JsNum.inf))
    let previous0 := roadNetwork.map (fun node => (node.pt, (none : Option Point)))
    let distances1 := mapSet distances0 startNode.pt (JsNum.num 0)
    let dp := dijkstraLoop endNode roadNetwork.length roadNetwork distances1 previous0
    let path := reconstructPath dp.2 (roadNetwork.length + 1) (some endNode.pt) []
    match path with
    | p0 :: _ =>
        if p0.x = startNode.x ∧ p0.y = startNode.y then path
        else [startNode.pt, endNode.pt]
    | [] => [startNode.pt, endNode.pt]
  | _, _ => []

/-- A time-stamped path point of a machine trace. -/
structure PathPoint where
  x : ℚ
  y : ℚ
  timestamp : ℚ
  action : String
deriving DecidableEq, Repr

/-- A supply event of a machine. -/
structure SupplyEvent where
  time : ℚ
  duration : ℚ
deriving DecidableEq, Repr

/-- `interface MachineState` from the source. -/
structure MachineState where
  id : ℕ
  currentCapacity : ℚ
  position : Point
  currentTime : ℚ
  path : List PathPoint
  supplyEvents : List SupplyEvent
  isIdle : Bool
deriving DecidableEq, Repr

/-- `interface FieldWorkState` from the source. -/
structure FieldWorkState where
  field : Field
  completedPercentage : ℚ
  isCompleted : Bool
  workingMachine : Option ℕ
  assignedMachines : List ℕ
  lastWorkPosition : Option Point
  workPath : List Point
deriving DecidableEq, Repr

/-- `selectOptimalFieldEntryPoint` from the source: the last worked position
if present, else the field corner closest to the base station (first minimum
wins). -/
def selectOptimalFieldEntryPoint (field : Field) (baseStation : Point)
    (lastWorkPosition : Option Point) : Point :=
  match lastWorkPosition with
  | some p => p
  | none =>
    let c0 : Point := { x := field.x, y := field.y }
    ((fieldCorners field).foldl
      (fun acc corner =>
        let distance := calculateDistance baseStation corner
        if distance < acc.2 then (corner, distance) else acc)
      (c0, calculateDistance baseStation c0)).1

/-- The record returned by `executeFieldWorkWithRoadNetwork`, together with
the machine object whose `currentTime` and `position` the source mutates
while travelling to the field. -/
structure WorkResult where
  machine : MachineState
  pathSegments : List PathPoint
  endPosition : Point
  capacityUsed : ℚ
  workTime : ℚ
  workPath : List Point
deriving Repr

/-- Accumulator of the in-field work loop of
`executeFieldWorkWithRoadNetwork`. -/
structure WorkAcc where
  currentCapacityUsed : ℚ
  workTime : ℚ
  endPosition : Point
  pathSegments : List PathPoint
  workPath : List Point
deriving Repr

/-- The `for` loop over the generated field-work points, including the
capacity-exhaustion break: when committing the next point would leave less
than 0.05 capacity, emit a `capacity_full` marker, an emergency road-travel
trace back to the base, and stop. -/
def fieldWorkLoop (mCap mTime capacityPerPoint timePerPoint : ℚ)
    (baseStation : Point) (roadNetwork : List RoadNode) :
    List Point → WorkAcc → WorkAcc
  | [], acc => acc
  | point :: rest, acc =>
    let gridPoint := snapToGrid point
    let nextCapacityUsed := acc.currentCapacityUsed + capacityPerPoint
    if mCap - nextCapacityUsed < 1/20 then
      let segsA := acc.pathSegments ++
        [⟨gridPoint.x, gridPoint.y, mTime + acc.workTime + timePerPoint, "capacity_full"⟩]
      let returnPath := findShortestPath gridPoint baseStation roadNetwork
      let rb := (returnPath.drop 1).foldl
        (fun (rb : ℚ × List PathPoint) returnPoint =>
          let segmentTime := calculateDistance gridPoint returnPoint / 5
          let rt := rb.1 + segmentTime
          (rt, rb.2 ++ [⟨returnPoint.x, returnPoint.y, mTime + rt, "emergency_road_travel"⟩]))
        (acc.workTime + timePerPoint, segsA)
      { currentCapacityUsed := nextCapacityUsed, workTime := rb.1,
        endPosition := gridPoint, pathSegments := rb.2,
        workPath := acc.workPath ++ [gridPoint] }
    else
      fieldWorkLoop mCap mTime capacityPerPoint timePerPoint baseStation roadNetwork rest
        { currentCapacityUsed := nextCapacityUsed,
          workTime := acc.workTime + timePerPoint,
          endPosition := gridPoint,
          pathSegments := acc.pathSegments ++
            [⟨gridPoint.x, gridPoint.y, mTime + acc.workTime + timePerPoint, "working"⟩],
          workPath := acc.workPath ++ [gridPoint] }

/-- `executeFieldWorkWithRoadNetwork` from the source. -/
def executeFieldWorkWithRoadNetwork (machine : MachineState) (fieldState : FieldWorkState)
    (machineCapacity : ℚ) (roadNetwork : List RoadNode) (baseStation : Point) : WorkResult :=
  let field := fieldState.field
  let remainingWork := max 0 (1 - fieldState.completedPercentage)
  let availableCapacity := min machine.currentCapacity remainingWork
  if availableCapacity ≤ 1/20 then
    { machine := machine, pathSegments := [], endPosition := machine.position,
      capacityUsed := 0, workTime := 0, workPath := [] }
  else
    let workStartPoint := selectOptimalFieldEntryPoint field baseStation fieldState.lastWorkPosition
    let travelPath := findShortestPath machine.position workStartPoint roadNetwork
    let ms := (travelPath.drop 1).foldl
      (fun (ms : MachineState × List PathPoint) point =>
        let travelTime := calculateDistance ms.1.position point / 5
        let m := { ms.1 with currentTime := ms.1.currentTime + travelTime, position := point }
        let gridPoint := snapToGrid point
        (m, ms.2 ++ [⟨gridPoint.x, gridPoint.y, m.currentTime, "road_travel"⟩]))
      (machine, [])
    let gridStartPoint := snapToGrid workStartPoint
    let m2 := { ms.1 with position := gridStartPoint }
    let segs2 := ms.2 ++ [⟨gridStartPoint.x, gridStartPoint.y, m2.currentTime, "field_start"⟩]
    let fieldWorkPath :=
      generateContinuousFieldWorkPath field fieldState.completedPercentage availableCapacity
    if fieldWorkPath.isEmpty then
      { machine := m2, pathSegments := segs2, endPosition := gridStartPoint,
        capacityUsed := 0, workTime := 0, workPath := [] }
    else
      let capacityPerPoint := availableCapacity / fieldWorkPath.length
      let timePerPoint := availableCapacity * 180 / fieldWorkPath.length
      let acc := fieldWorkLoop m2.currentCapacity m2.currentTime capacityPerPoint timePerPoint
        baseStation roadNetwork fieldWorkPath
        { currentCapacityUsed := 0, workTime := 0, endPosition := gridStartPoint,
          pathSegments := segs2, workPath := [] }
      { machine := m2, pathSegments := acc.pathSegments, endPosition := acc.endPosition,
        capacityUsed := acc.currentCapacityUsed, workTime := acc.workTime,
        workPath := acc.workPath }

/-- The resupply branch of the scheduling loop: when the machine's capacity
is below 0.1, travel back to the base along the road network, log a supply
event, restore full capacity and log `supply_complete`. -/
def resupplyMachine (gridBaseStation : Point) (roadNetwork : List RoadNode)
    (machineCapacity supplyDuration : ℚ) (machine : MachineState) : MachineState :=
  if machine.currentCapacity < 1/10 then
    let returnPath := findShortestPath machine.position gridBaseStation roadNetwork
    let m1 := (returnPath.drop 1).foldl
      (fun (m : MachineState) (point : Point) =>
        let travelTime := calculateDistance m.position point / 5
        { m with currentTime := m.currentTime + travelTime, position := point,
                 path := m.path ++ [⟨point.x, point.y, m.currentTime + travelTime, "road_travel"⟩] })
      machine
    let m2 : MachineState := { m1 with
      path := m1.path ++ [⟨gridBaseStation.x, gridBaseStation.y, m1.currentTime, "supply"⟩],
      supplyEvents := m1.supplyEvents ++ [⟨m1.currentTime, supplyDuration⟩] }
    let m3 : MachineState := { m2 with
      currentTime := m2.currentTime + supplyDuration,
      currentCapacity := machineCapacity,
      position := gridBaseStation }
    ({ m3 with
      path := m3.path ++ [⟨gridBaseStation.x, gridBaseStation.y, m3.currentTime, "supply_complete"⟩] } : MachineState)
  else machine

/-- The post-work state update of the scheduling loop: apply the work
result to the machine, advance the field's completed percentage, record the
resume position, and mark the field completed at 0.99. -/
def machineWork (gridBaseStation : Point) (roadNetwork : List RoadNode) (machineCapacity : ℚ)
    (machine : MachineState) (fieldState : FieldWorkState) : MachineState × FieldWorkState :=
  let workResult :=
    executeFieldWorkWithRoadNetwork machine fieldState machineCapacity roadNetwork gridBaseStation
  let m := workResult.machine
  let machine' := { m with
    currentCapacity := m.currentCapacity - workResult.capacityUsed,
    currentTime := m.currentTime + workResult.workTime,
    position := workResult.endPosition,
    path := m.path ++ workResult.pathSegments }
  let p' := fieldState.completedPercentage + workResult.capacityUsed
  let fieldState' := { fieldState with
    completedPercentage := p',
    lastWorkPosition := some workResult.endPosition,
    workPath := fieldState.workPath ++ workResult.workPath,
    isCompleted := if p' ≥ 99/100 then true else fieldState.isCompleted }
  (machine', fieldState')

/-- The first not-yet-completed field state and its index
(`fieldStates.find((fs) => !fs.isCompleted)` in the source). -/
def findFirstIncomplete : List FieldWorkState → Option (ℕ × FieldWorkState)
  | [] => none
  | fs :: rest =>
      if fs.isCompleted then (findFirstIncomplete rest).map (fun p => (p.1 + 1, p.2))
      else some (0, fs)

/-- The `for (const machine of machines)` body of the scheduling loop:
skip machines whose time is ahead of the tick, stop at the first tick with
no incomplete field (`break`), otherwise resupply if needed and execute
field work against the first incomplete field. -/
def processMachines (currentTime : ℚ) (gridBaseStation : Point) (roadNetwork : List RoadNode)
    (machineCapacity supplyDuration : ℚ) :
    List MachineState → List FieldWorkState → List MachineState × List FieldWorkState
  | [], fieldStates => ([], fieldStates)
  | machine :: rest, fieldStates =>
    if machine.currentTime > currentTime then
      let mf := processMachines currentTime gridBaseStation roadNetwork machineCapacity
        supplyDuration rest fieldStates
      (machine :: mf.1, mf.2)
    else
      match findFirstIncomplete fieldStates with
      | none => (machine :: rest, fieldStates)
      | some (idx, availableField) =>
        let m1 := resupplyMachine gridBaseStation roadNetwork machineCapacity supplyDuration machine
        let mw := machineWork gridBaseStation roadNetwork machineCapacity m1 availableField
        let fieldStates' := fieldStates.set idx mw.2
        let mf := processMachines currentTime gridBaseStation roadNetwork machineCapacity
          supplyDuration rest fieldStates'
        (mw.1 :: mf.1, mf.2)

/-- The outer scheduling loop.  In the source `currentTime` starts at 0 and
advances by 60 per iteration while `currentTime < 3600 * 8` and some field
is incomplete.  The tick index `k` carries `currentTime = 60 * k` (exact,
since the source only ever adds the integer 60), and the structural `fuel`
argument makes the recursion total; the caller passes `fuel = 480`, which
is never exhausted before the time guard `60 * k < 3600 * 8` fails. -/
def simLoop (gridBaseStation : Point) (roadNetwork : List RoadNode)
    (machineCapacity supplyDuration : ℚ) :
    ℕ → ℕ → List MachineState → List FieldWorkState →
    List MachineState × List FieldWorkState
  | 0, _, machines, fieldStates => (machines, fieldStates)
  | fuel + 1, k, machines, fieldStates =>
    if 60 * k < 3600 * 8 ∧ fieldStates.any (fun fs => !fs.isCompleted) then
      let mf := processMachines (60 * k) gridBaseStation roadNetwork machineCapacity
        supplyDuration machines fieldStates
      simLoop gridBaseStation roadNetwork machineCapacity supplyDuration fuel (k + 1) mf.1 mf.2
    else (machines, fieldStates)

/-- The final pass of the scheduler: every machine not at the base travels
back along the road network and logs a `return` action. -/
def returnToBase (gridBaseStation : Point) (roadNetwork : List RoadNode)
    (machine : MachineState) : MachineState :=
  if machine.position.x ≠ gridBaseStation.x ∨ machine.position.y ≠ gridBaseStation.y then
    let returnPath := findShortestPath machine.position gridBaseStation roadNetwork
    let m1 := (returnPath.drop 1).foldl
      (fun (m : MachineState) (point : Point) =>
        let travelTime := calculateDistance m.position point / 5
        { m with currentTime := m.currentTime + travelTime, position := point,
                 path := m.path ++ [⟨point.x, point.y, m.currentTime + travelTime, "road_travel"⟩] })
      machine
    { m1 with path := m1.path ++ [⟨gridBaseStation.x, gridBaseStation.y, m1.currentTime, "return"⟩] }
  else machine

/-- `calculateEfficiency` from the source, in JavaScript-number arithmetic:
with no machines the averages are `0 / 0 = NaN`, which propagates through
`Math.max` and the final product. -/
def calculateEfficiency (machines : List MachineState) (fieldStates : List FieldWorkState) :
    JsNum :=
  let completedFields : ℚ := (fieldStates.filter (fun fs => fs.isCompleted)).length
  let totalFields : ℚ := fieldStates.length
  let completionRate := JsNum.div (JsNum.num completedFields) (JsNum.num totalFields)
  let avgTime := JsNum.div
    (JsNum.num (machines.foldl (fun sum m => sum + m.currentTime) 0))
    (JsNum.num machines.length)
  let timeVariance := JsNum.div
    (machines.foldl
      (fun sum m =>
        JsNum.add sum (JsNum.mul (JsNum.sub (JsNum.num m.currentTime) avgTime)
          (JsNum.sub (JsNum.num m.currentTime) avgTime)))
      (JsNum.num 0))
    (JsNum.num machines.length)
  let balanceScore := JsNum.max2 (JsNum.num (1/2))
    (JsNum.sub (JsNum.num 1)
      (JsNum.div timeVariance (JsNum.add (JsNum.mul avgTime avgTime) (JsNum.num 1))))
  JsNum.mul completionRate balanceScore

/-- `interface ScheduleRequest`, `parameters` part. -/
structure ScheduleParameters where
  fieldWidth : ℚ
  fieldHeight : ℚ
  totalFields : ℕ
  machineCapacity : ℚ
  supplyDuration : ℚ
deriving DecidableEq, Repr

/-- `interface ScheduleRequest` from the source. -/
structure ScheduleRequest where
  machineCount : ℕ
  fields : List Field
  baseStation : Point
  parameters : ScheduleParameters
deriving DecidableEq, Repr

/-- `interface MachineRoute` from the source. -/
structure MachineRoute where
  machineId : ℕ
  path : List PathPoint
  color : String
  supplyEvents : List SupplyEvent
deriving DecidableEq, Repr

/-- `interface ScheduleResult` from the source.  `totalTime` and
`efficiency` are JavaScript numbers: both can be non-finite when there are
no machines. -/
structure ScheduleResult where
  machines : List MachineRoute
  totalTime : JsNum
  efficiency : JsNum
  totalSupplyEvents : ℕ
  baseStation : Point
  roadNetwork : List Point
deriving DecidableEq, Repr

/-- The machine colour palette of the source. -/
def colors : List String :=
  ["#3b82f6", "#ef4444", "#f59e0b", "#8b5cf6", "#ec4899", "#06b6d4", "#f97316", "#6366f1"]

/-- The initial machine states: every machine starts at the snapped base
station with full capacity and a single `start` path point at time 0. -/
def initMachines (machineCount : ℕ) (machineCapacity : ℚ) (gridBaseStation : Point) :
    List MachineState :=
  (List.range machineCount).map fun i =>
    { id := i + 1, currentCapacity := machineCapacity, position := gridBaseStation,
      currentTime := 0,
      path := [⟨gridBaseStation.x, gridBaseStation.y, 0, "start"⟩],
      supplyEvents := [], isIdle := true }

/-- The initial field work states: zero completion, not completed. -/
def initFieldStates (fields : List Field) : List FieldWorkState :=
  fields.map fun field =>
    { field := field, completedPercentage := 0, isCompleted := false,
      workingMachine := none, assignedMachines := [], lastWorkPosition := none,
      workPath := [] }

/-- The machine and field states at the end of the schedule computation
(after the outer loop and the final return-to-base pass); `([], [])` when
the request has no fields (the scheduler returns early). -/
def schedulePipeline (data : ScheduleRequest) : List MachineState × List FieldWorkState :=
  let gridBaseStation := snapToGrid data.baseStation
  if data.fields.isEmpty then ([], [])
  else
    let roadNetwork := generateFieldRoadNetwork data.fields gridBaseStation
    let machines := initMachines data.machineCount data.parameters.machineCapacity gridBaseStation
    let fieldStates := initFieldStates data.fields
    let mf := simLoop gridBaseStation roadNetwork data.parameters.machineCapacity
      data.parameters.supplyDuration 480 0 machines fieldStates
    (mf.1.map (returnToBase gridBaseStation roadNetwork), mf.2)

/-- `generateScheduleWithRoadNetwork` from the source. -/
def generateScheduleWithRoadNetwork (data : ScheduleRequest) : ScheduleResult :=
  let gridBaseStation := snapToGrid data.baseStation
  if data.fields.isEmpty then
    { machines := [], totalTime := JsNum.num 0, efficiency := JsNum.num 0,
      totalSupplyEvents := 0, baseStation := gridBaseStation, roadNetwork := [] }
  else
    let roadNetwork := generateFieldRoadNetwork data.fields gridBaseStation
    let mf := schedulePipeline data
    { machines := mf.1.map fun machine =>
        { machineId := machine.id, path := machine.path,
          color := colors.getD ((machine.id - 1) % colors.length) "",
          supplyEvents := machine.supplyEvents },
      totalTime := JsNum.div (jsMaxList (mf.1.map fun m => m.currentTime)) (JsNum.num 60),
      efficiency := calculateEfficiency mf.1 mf.2,
      totalSupplyEvents := mf.1.foldl (fun sum m => sum + m.supplyEvents.length) 0,
      baseStation := gridBaseStation,
      roadNetwork := roadNetwork.map fun node => ({ x := node.x, y := node.y } : Point) }

/-! ### Helper lemmas about the numeric model -/

/-- `Rat.floor` agrees with the floor of the order structure. -/
theorem ratFloor_eq (q : ℚ) : Rat.floor q = ⌊q⌋ := rfl

/-- `Rat.ceil` agrees with the ceiling of the order structure. -/
theorem ratCeil_eq (q : ℚ) : Rat.ceil q = ⌈q⌉ := by
  unfold Rat.ceil
  split
  · rename_i h
    conv_rhs => rw [← (Rat.den_eq_one_iff q).mp h]
    rw [Int.ceil_intCast]
  · rename_i h
    have hint : (⌊q⌋ : ℚ) ≠ q := by
      intro hc
      exact h (Rat.den_eq_one_iff q |>.mpr (by rw [← hc]; norm_num) |>.symm ▸ rfl)
    have h1 : ⌊q⌋ < ⌈q⌉ := by
      have hlt : (⌊q⌋ : ℚ) < q := lt_of_le_of_ne (Int.floor_le q) hint
      exact_mod_cast lt_of_lt_of_le hlt (Int.le_ceil q)
    have h2 : ⌈q⌉ ≤ ⌊q⌋ + 1 := Int.ceil_le_floor_add_one q
    have : ⌈q⌉ = ⌊q⌋ + 1 := by omega
    rw [this, ← Rat.floor_def]

/-- The square-root model is nonnegative. -/
theorem jsSqrt_nonneg (q : ℚ) : 0 ≤ jsSqrt q := by
  unfold jsSqrt
  rw [Rat.mkRat_eq_div]
  positivity

/-- Distances are nonnegative. -/
theorem calculateDistance_nonneg (p q : Point) : 0 ≤ calculateDistance p q :=
  jsSqrt_nonneg _

/-- Every coverage row is a nonempty list whose head lies on the row line
`field.y + i * field.height / totalRows`. -/
theorem coverageRow_head (field : Field) (sp : ℚ) (totalRows startRow i : ℤ) :
    ∃ p rest, coverageRow field sp totalRows startRow i = p :: rest ∧
      p.y = field.y + ((i : ℚ) * field.height) / (totalRows : ℚ) := by
  unfold coverageRow
  split
  · split
    · exact ⟨_, _, rfl, rfl⟩
    · exact ⟨_, _, rfl, rfl⟩
  · split
    · exact ⟨_, _, rfl, rfl⟩
    · exact ⟨_, _, rfl, rfl⟩

/-! ### Claim C6: coverage-path start row -/

/-- C6 (counterexample): with `startFraction = 0` and `workFraction = 0`
(both admissible under the claim, which only requires nonnegativity and sum
at most 1), the coverage-path generator returns the empty sequence, so the
claimed non-emptiness fails. -/
theorem c6_counterexample :
    (0 : ℚ) ≤ 0 ∧ (0 : ℚ) + 0 ≤ 1 ∧
      generateContinuousFieldWorkPath ⟨1, 0, 0, 10, 10⟩ 0 0 = [] := by decide

/-- C6 (amended): for every field with positive width and height, every
`startFraction ≥ 0` and every strictly positive `workFraction` with
`startFraction + workFraction ≤ 1`, the coverage path is nonempty and its
first point lies on the row with index `floor(startFraction * totalRows)`,
where `totalRows = max 1 (floor (height / 5))`. -/
theorem c6_coverage_start_row (field : Field) (sf wf : ℚ)
    (hw : 0 < field.width) (hh : 0 < field.height)
    (hsf : 0 ≤ sf) (hwf : 0 < wf) (hsum : sf + wf ≤ 1) :
    ∃ p rest, generateContinuousFieldWorkPath field sf wf = p :: rest ∧
      p.y = field.y +
        ((Rat.floor (sf * (max 1 (Rat.floor (field.height / 5)) : ℤ)) : ℚ) * field.height) /
          ((max 1 (Rat.floor (field.height / 5)) : ℤ) : ℚ) := by
  have hR1 : (1 : ℤ) ≤ max 1 (Rat.floor (field.height / 5)) := le_max_left _ _
  set R : ℤ := max 1 (Rat.floor (field.height / 5)) with hRdef
  have hRpos : (0 : ℚ) < (R : ℚ) := by exact_mod_cast lt_of_lt_of_le zero_lt_one hR1
  set sR : ℤ := Rat.floor (sf * (R : ℚ)) with hsRdef
  have hfloor_le : (sR : ℚ) ≤ sf * R := by
    rw [hsRdef, ratFloor_eq]; exact Int.floor_le _
  have hsf1 : sf < 1 := by linarith
  have hsR_lt_R : sR < R := by
    have h1 : sf * R < 1 * R := by
      exact mul_lt_mul_of_pos_right hsf1 hRpos
    have : (sR : ℚ) < (R : ℚ) := by rw [one_mul] at h1; linarith
    exact_mod_cast this
  have hceil : sR + 1 ≤ Rat.ceil ((sf + wf) * (R : ℚ)) := by
    rw [ratCeil_eq]
    have : (sR : ℚ) < (sf + wf) * (R : ℚ) := by
      have hwfR : 0 < wf * R := mul_pos hwf hRpos
      calc (sR : ℚ) ≤ sf * R := hfloor_le
        _ < sf * R + wf * R := by linarith
        _ = (sf + wf) * R := by ring
    have h2 : sR < ⌈(sf + wf) * (R : ℚ)⌉ := Int.lt_ceil.mpr this
    omega
  have hend : sR + 1 ≤ min R (Rat.ceil ((sf + wf) * (R : ℚ))) := by
    exact le_min (by omega) hceil
  set eR : ℤ := min R (Rat.ceil ((sf + wf) * (R : ℚ))) with heRdef
  have hunfold : generateContinuousFieldWorkPath field sf wf =
      (List.range (eR - sR).toNat).flatMap
        (fun k => coverageRow field sf R sR (sR + (k : ℤ))) := rfl
  rw [hunfold]
  obtain ⟨m, hm⟩ : ∃ m, (eR - sR).toNat = m + 1 := ⟨(eR - sR).toNat - 1, by omega⟩
  rw [hm, List.range_succ_eq_map, List.flatMap_cons]
  obtain ⟨p, rest, hrow, hy⟩ := coverageRow_head field sf R sR (sR + (0 : ℕ))
  rw [hrow]
  refine ⟨p, rest ++ _, rfl, ?_⟩
  rw [hy]
  norm_num

/-- Witness for C6 at a 10 by 10 field with `startFraction = workFraction = 1/2`. -/
theorem c6_coverage_start_row_witness :
    ((0 : ℚ) < 10 ∧ (0 : ℚ) < 10 ∧ (0 : ℚ) ≤ 1/2 ∧ (0 : ℚ) < 1/2 ∧
      (1/2 : ℚ) + 1/2 ≤ 1) ∧
    (∃ p rest, generateContinuousFieldWorkPath ⟨1, 0, 0, 10, 10⟩ (1/2) (1/2) = p :: rest ∧
      p.y = (0 : ℚ) +
        ((Rat.floor ((1/2 : ℚ) * (max 1 (Rat.floor ((10 : ℚ) / 5)) : ℤ)) : ℚ) * 10) /
          ((max 1 (Rat.floor ((10 : ℚ) / 5)) : ℤ) : ℚ)) :=
  ⟨⟨by decide, by decide, by decide, by decide, by decide⟩,
   c6_coverage_start_row ⟨1, 0, 0, 10, 10⟩ (1/2) (1/2) (by decide) (by decide) (by decide)
     (by decide) (by decide)⟩

/-! ### Claim C5: shortest-path point counts -/

/-- Each reduce step keeps either the accumulator or the node. -/
theorem closerOf_eq_or (p : Point) (a b : RoadNode) :
    closerOf p a b = a ∨ closerOf p a b = b := by
  obtain ⟨ax, ay, ac⟩ := a
  simp only [closerOf]
  by_cases h : calculateDistance p b.pt < calculateDistance p ⟨ax, ay⟩
  · rw [if_pos h]; exact Or.inr rfl
  · rw [if_neg h]; exact Or.inl rfl

/-- The nearest-node reduce returns an element of the scanned list. -/
theorem foldl_closerOf_mem (p : Point) :
    ∀ (t : List RoadNode) (a : RoadNode), t.foldl (closerOf p) a ∈ a :: t := by
  intro t
  induction t with
  | nil => intro a; exact List.mem_singleton.mpr rfl
  | cons b t ih =>
    intro a
    rw [List.foldl_cons]
    have hsub : (closerOf p a b) :: t ⊆ a :: b :: t := by
      intro x hx
      rcases List.mem_cons.mp hx with h1 | h1
      · rcases closerOf_eq_or p a b with h2 | h2
        · rw [h2] at h1
          exact List.mem_cons.mpr (Or.inl h1)
        · rw [h2] at h1
          exact List.mem_cons.mpr (Or.inr (List.mem_cons.mpr (Or.inl h1)))
      · exact List.mem_cons.mpr (Or.inr (List.mem_cons.mpr (Or.inr h1)))
    exact hsub (ih (closerOf p a b))

/-- With every stored distance reading as `Infinity` (the falsy-lookup
quirk), the minimum scan selects no node. -/
theorem scanMin_of_inf (unvisited : List RoadNode) (distances : List (Point × JsNum))
    (h : ∀ n ∈ unvisited, orInf (mapGet? distances n.pt) = JsNum.inf) :
    scanMin unvisited distances = (none, JsNum.inf) := by
  unfold scanMin
  induction unvisited with
  | nil => rfl
  | cons hd tl ih =>
    rw [List.foldl_cons]
    have hstep : scanStep distances (none, JsNum.inf) hd = (none, JsNum.inf) := by
      unfold scanStep
      rw [h hd (List.mem_cons_self hd tl)]
      rfl
    rw [hstep]
    exact ih (fun n hn => h n (List.mem_cons_of_mem hd hn))

/-- A lookup in a map whose stored values are all `Infinity` or `0` reads
as `Infinity` through the falsy-lookup quirk. -/
theorem orInf_of_values (m : List (Point × JsNum))
    (h : ∀ kv ∈ m, kv.2 = JsNum.inf ∨ kv.2 = JsNum.num 0) (k : Point) :
    orInf (mapGet? m k) = JsNum.inf := by
  unfold mapGet? orInf
  cases hf : m.find? (fun kv => decide (kv.1 = k)) with
  | none => rfl
  | some kv =>
    have hmem := List.mem_of_find?_eq_some hf
    rcases h kv hmem with h1 | h1 <;> simp [h1]

/-- The values stored in the initial distance map (all `Infinity`, with `0`
at the snapped start node) are each `Infinity` or `0`. -/
theorem distances1_values (net : List RoadNode) (sp : Point) :
    ∀ kv ∈ mapSet (net.map fun node => (node.pt, JsNum.inf)) sp (JsNum.num 0),
      kv.2 = JsNum.inf ∨ kv.2 = JsNum.num 0 := by
  intro kv hkv
  unfold mapSet at hkv
  split at hkv
  · obtain ⟨kv0, hkv0, rfl⟩ := List.mem_map.mp hkv
    obtain ⟨n, _, rfl⟩ := List.mem_map.mp hkv0
    by_cases h : (n.pt, JsNum.inf).1 = sp
    · rw [if_pos h]; exact Or.inr rfl
    · rw [if_neg h]; exact Or.inl rfl
  · rcases List.mem_append.mp hkv with h1 | h1
    · obtain ⟨n, _, rfl⟩ := List.mem_map.mp h1
      exact Or.inl rfl
    · rw [List.mem_singleton.mp h1]
      exact Or.inr rfl

/-- With every stored distance reading as `Infinity`, the Dijkstra loop
exits at its first iteration with its maps unchanged. -/
theorem dijkstraLoop_breaks (endNode : RoadNode) (fuel : ℕ) (unvisited : List RoadNode)
    (distances : List (Point × JsNum)) (previous : List (Point × Option Point))
    (h : ∀ n ∈ unvisited, orInf (mapGet? distances n.pt) = JsNum.inf) :
    dijkstraLoop endNode fuel unvisited distances previous = (distances, previous) := by
  cases fuel with
  | zero => rfl
  | succ f =>
    unfold dijkstraLoop
    by_cases he : unvisited.isEmpty
    · rw [if_pos he]
    · rw [if_neg he, scanMin_of_inf unvisited distances h]

/-- Every predecessor stored in the initial predecessor map is `null`. -/
theorem mapGet?_prev_none (l : List RoadNode) (k : Point) :
    (mapGet? (l.map fun node => (node.pt, (none : Option Point))) k).join = none := by
  induction l with
  | nil => rfl
  | cons hd tl ih =>
    rw [List.map_cons]
    unfold mapGet? at ih ⊢
    rw [List.find?_cons]
    split
    · rfl
    · exact ih

/-- With all predecessors `null`, the reconstruction loop stops after one
step and returns the end node alone. -/
theorem reconstructPath_single (previous : List (Point × Option Point)) (fuel : ℕ)
    (e : Point) (hprev : (mapGet? previous e).join = none) :
    reconstructPath previous (fuel + 1) (some e) [] = [e] := by
  unfold reconstructPath
  rw [hprev]
  cases fuel <;> rfl

/-- C5 (amended): on every nonempty road network the path finder returns at
least one point: exactly the snapped end node alone when the two snapped
nodes have equal coordinates, and exactly the two snapped endpoints (the
straight-line fallback) otherwise.  The claimed "always at least two
points" fails in the coincident case. -/
theorem c5_path_points (start end_ : Point) (net : List RoadNode) (h : net ≠ []) :
    ∃ s e, closestNode start net = some s ∧ closestNode end_ net = some e ∧
      findShortestPath start end_ net = (if e.pt = s.pt then [e.pt] else [s.pt, e.pt]) ∧
      1 ≤ (findShortestPath start end_ net).length := by
  obtain ⟨hd, tl, rfl⟩ : ∃ hd tl, net = hd :: tl := by
    cases net with
    | nil => exact absurd rfl h
    | cons a b => exact ⟨a, b, rfl⟩
  have hext : ∀ a b : Point, a.x = b.x → a.y = b.y → a = b := by
    intro a b hx hy
    exact congrArg₂ Point.mk hx hy
  have hchar : findShortestPath start end_ (hd :: tl) =
      (if (tl.foldl (closerOf end_) hd).pt = (tl.foldl (closerOf start) hd).pt then
        [(tl.foldl (closerOf end_) hd).pt]
      else [(tl.foldl (closerOf start) hd).pt, (tl.foldl (closerOf end_) hd).pt]) := by
    have hrun : findShortestPath start end_ (hd :: tl) =
        (match reconstructPath
            (dijkstraLoop (tl.foldl (closerOf end_) hd) (hd :: tl).length (hd :: tl)
              (mapSet ((hd :: tl).map fun node => (node.pt, JsNum.inf))
                (tl.foldl (closerOf start) hd).pt (JsNum.num 0))
              ((hd :: tl).map fun node => (node.pt, (none : Option Point)))).2
            ((hd :: tl).length + 1) (some (tl.foldl (closerOf end_) hd).pt) [] with
          | p0 :: _ =>
            if p0.x = (tl.foldl (closerOf start) hd).x ∧
                p0.y = (tl.foldl (closerOf start) hd).y then
              reconstructPath
                (dijkstraLoop (tl.foldl (closerOf end_) hd) (hd :: tl).length (hd :: tl)
                  (mapSet ((hd :: tl).map fun node => (node.pt, JsNum.inf))
                    (tl.foldl (closerOf start) hd).pt (JsNum.num 0))
                  ((hd :: tl).map fun node => (node.pt, (none : Option Point)))).2
                ((hd :: tl).length + 1) (some (tl.foldl (closerOf end_) hd).pt) []
            else [(tl.foldl (closerOf start) hd).pt, (tl.foldl (closerOf end_) hd).pt]
          | [] => [(tl.foldl (closerOf start) hd).pt, (tl.foldl (closerOf end_) hd).pt]) :=
      rfl
    have hbreak : dijkstraLoop (tl.foldl (closerOf end_) hd) (hd :: tl).length (hd :: tl)
        (mapSet ((hd :: tl).map fun node => (node.pt, JsNum.inf))
          (tl.foldl (closerOf start) hd).pt (JsNum.num 0))
        ((hd :: tl).map fun node => (node.pt, (none : Option Point))) =
        (mapSet ((hd :: tl).map fun node => (node.pt, JsNum.inf))
          (tl.foldl (closerOf start) hd).pt (JsNum.num 0),
         (hd :: tl).map fun node => (node.pt, (none : Option Point))) :=
      dijkstraLoop_breaks _ _ _ _ _
        (fun n _ => orInf_of_values _
          (distances1_values (hd :: tl) (tl.foldl (closerOf start) hd).pt) n.pt)
    rw [hrun, hbreak]
    rw [reconstructPath_single _ (hd :: tl).length _ (mapGet?_prev_none (hd :: tl) _)]
    dsimp only
    by_cases heq : (tl.foldl (closerOf end_) hd).pt = (tl.foldl (closerOf start) hd).pt
    · rw [if_pos heq]
      have hxy : (tl.foldl (closerOf end_) hd).pt.x = (tl.foldl (closerOf start) hd).x ∧
          (tl.foldl (closerOf end_) hd).pt.y = (tl.foldl (closerOf start) hd).y := by
        rw [heq]
        exact ⟨rfl, rfl⟩
      rw [if_pos hxy]
    · rw [if_neg heq]
      have hxy : ¬ ((tl.foldl (closerOf end_) hd).pt.x = (tl.foldl (closerOf start) hd).x ∧
          (tl.foldl (closerOf end_) hd).pt.y = (tl.foldl (closerOf start) hd).y) := by
        intro hc
        exact heq (hext _ _ hc.1 hc.2)
      rw [if_neg hxy]
  refine ⟨tl.foldl (closerOf start) hd, tl.foldl (closerOf end_) hd, rfl, rfl, hchar, ?_⟩
  rw [hchar]
  by_cases heq : (tl.foldl (closerOf end_) hd).pt = (tl.foldl (closerOf start) hd).pt
  · rw [if_pos heq]
    exact le_refl 1
  · rw [if_neg heq]
    exact Nat.le_succ 1

/-! ### Claim C2: road nodes versus field interiors -/

/-- Grid-phase nodes are never strictly inside a field. -/
theorem networkGridNodes_not_inside (fields : List Field) (baseStation : Point) :
    ∀ x ∈ networkGridNodes fields baseStation, isPointInsideAnyField x fields = false := by
  intro x hx
  unfold networkGridNodes at hx
  obtain ⟨a, _, hx⟩ := List.mem_flatMap.mp hx
  obtain ⟨b, _, hb⟩ := List.mem_filterMap.mp hx
  by_cases hin : isPointInsideAnyField ⟨a, b⟩ fields
  · rw [if_pos hin] at hb
    cases hb
  · rw [if_neg hin] at hb
    injection hb with hb
    rw [← hb]
    exact Bool.not_eq_true _ ▸ (by simpa using hin)

/-- Base-phase nodes are grid nodes or the (outside) base station. -/
theorem networkBaseNodes_mem (fields : List Field) (baseStation : Point) :
    ∀ x ∈ networkBaseNodes fields baseStation,
      x ∈ networkGridNodes fields baseStation ∨
        (x = baseStation ∧ isPointInsideAnyField baseStation fields = false) := by
  intro x hx
  simp only [networkBaseNodes] at hx
  split at hx
  · rename_i hcond
    rcases List.mem_append.mp hx with h1 | h1
    · exact Or.inl h1
    · rw [List.mem_singleton.mp h1]
      refine Or.inr ⟨rfl, ?_⟩
      have h2 := (Bool.and_eq_true _ _).mp hcond |>.1
      simpa using h2
  · exact Or.inl hx

/-- The inner corner fold only appends corners of the given list. -/
theorem mem_corner_fold_inner : ∀ (cs : List Point) (init : List Point) (x : Point),
    x ∈ cs.foldl (fun nodes corner =>
      if nodes.contains corner then nodes else nodes ++ [corner]) init →
    x ∈ init ∨ x ∈ cs := by
  intro cs
  induction cs with
  | nil =>
    intro init x hx
    exact Or.inl hx
  | cons c cs ih =>
    intro init x hx
    rw [List.foldl_cons] at hx
    rcases ih _ x hx with h1 | h1
    · by_cases hc : init.contains c
      · rw [if_pos hc] at h1
        exact Or.inl h1
      · rw [if_neg hc] at h1
        rcases List.mem_append.mp h1 with h2 | h2
        · exact Or.inl h2
        · exact Or.inr (List.mem_cons.mpr (Or.inl (List.mem_singleton.mp h2)))
    · exact Or.inr (List.mem_cons_of_mem c h1)

/-- The outer corner fold only appends corners of fields of the list. -/
theorem mem_corner_fold : ∀ (fs : List Field) (init : List Point) (x : Point),
    x ∈ fs.foldl (fun nodes field =>
      (fieldCorners field).foldl (fun nodes corner =>
        if nodes.contains corner then nodes else nodes ++ [corner]) nodes) init →
    x ∈ init ∨ ∃ f ∈ fs, x ∈ fieldCorners f := by
  intro fs
  induction fs with
  | nil =>
    intro init x hx
    exact Or.inl hx
  | cons f fs ih =>
    intro init x hx
    rw [List.foldl_cons] at hx
    rcases ih _ x hx with h1 | h1
    · rcases mem_corner_fold_inner _ _ _ h1 with h2 | h2
      · exact Or.inl h2
      · exact Or.inr ⟨f, List.mem_cons_self f fs, h2⟩
    · obtain ⟨g, hg, hgx⟩ := h1
      exact Or.inr ⟨g, List.mem_cons_of_mem f hg, hgx⟩

/-- C2 (amended): every node of the generated road network either lies
outside every field or is a corner of one of the fields; a node strictly
inside some field can only be a field corner (which happens exactly when
fields overlap so that one field's corner is interior to another). -/
theorem c2_inside_node_is_corner (fields : List Field) (baseStation : Point) :
    ∀ n ∈ generateFieldRoadNetwork fields baseStation,
      isPointInsideAnyField n.pt fields = true → ∃ f ∈ fields, n.pt ∈ fieldCorners f := by
  intro n hn hin
  unfold generateFieldRoadNetwork at hn
  obtain ⟨x, hx, rfl⟩ := List.mem_map.mp hn
  rcases mem_corner_fold _ _ _ hx with h1 | h1
  · rcases networkBaseNodes_mem fields baseStation x h1 with h2 | h2
    · have := networkGridNodes_not_inside fields baseStation x h2
      rw [show ({ x := x.x, y := x.y, connections := _ } : RoadNode).pt = x from rfl] at hin
      rw [this] at hin
      cases hin
    · rw [show ({ x := x.x, y := x.y, connections := _ } : RoadNode).pt = x from rfl] at hin
      rw [h2.1] at hin
      rw [h2.2] at hin
      cases hin
  · rw [show ({ x := x.x, y := x.y, connections := _ } : RoadNode).pt = x from rfl]
    exact h1

/-- Two overlapping fields: the corner (5, 5) of the second lies strictly
inside the first, and the corner (10, 10) of the first lies strictly
inside the second. -/
def c2Fields : List Field := [⟨1, 0, 0, 10, 10⟩, ⟨2, 5, 5, 10, 10⟩]

set_option maxRecDepth 40000 in
/-- C2 (counterexample): with overlapping fields the generated road network
contains nodes strictly inside a field — the corners (10, 10) and (5, 5) —
refuting the claim that every generated node satisfies at least one strict
outside inequality for every field. -/
theorem c2_counterexample :
    ((generateFieldRoadNetwork c2Fields ⟨0, 0⟩).filter
      (fun n => isPointInsideAnyField n.pt c2Fields)).map RoadNode.pt =
      [⟨10, 10⟩, ⟨5, 5⟩] := by decide

/-- The interior node used to witness the amended C2 statement: the node at
(5, 5), a corner of the second field strictly inside the first. -/
def c2BadNode : RoadNode :=
  ((generateFieldRoadNetwork c2Fields ⟨0, 0⟩).filter
    (fun n => isPointInsideAnyField n.pt c2Fields)).getD 1 ⟨0, 0, []⟩

set_option maxRecDepth 40000 in
/-- Witness for the amended C2 statement at a concrete network and node. -/
theorem c2_inside_node_is_corner_witness :
    ∃ f ∈ c2Fields, c2BadNode.pt ∈ fieldCorners f :=
  c2_inside_node_is_corner c2Fields ⟨0, 0⟩ c2BadNode (by decide) (by decide)

/-- The road network of a single 10 by 10 field with the base station at
(30, 30), used as a concrete counterexample network for C5. -/
def c5Net : List RoadNode := generateFieldRoadNetwork [⟨1, 0, 0, 10, 10⟩] ⟨30, 30⟩

set_option maxRecDepth 40000 in
/-- C5 (counterexample): on a concrete nonempty network, querying the path
finder with coinciding start and end returns a single-point path, refuting
the claim that the result always contains at least two points. -/
theorem c5_counterexample :
    c5Net ≠ [] ∧ (findShortestPath ⟨30, 30⟩ ⟨30, 30⟩ c5Net).length = 1 := by decide

/-- Witness for `c5_path_points` at a concrete nonempty network. -/
theorem c5_path_points_witness :
    ∃ s e, closestNode ⟨0, 0⟩ [⟨0, 0, []⟩] = some s ∧
      closestNode ⟨1, 1⟩ [⟨0, 0, []⟩] = some e ∧
      findShortestPath ⟨0, 0⟩ ⟨1, 1⟩ [⟨0, 0, []⟩] =
        (if e.pt = s.pt then [e.pt] else [s.pt, e.pt]) ∧
      1 ≤ (findShortestPath ⟨0, 0⟩ ⟨1, 1⟩ [⟨0, 0, []⟩]).length :=
  c5_path_points ⟨0, 0⟩ ⟨1, 1⟩ [⟨0, 0, []⟩] (by decide)

/-! ### Claim C4: efficiency score bounds -/

/-- Addition of finite JavaScript numbers is rational addition. -/
theorem JsNum.add_num (a b : ℚ) : JsNum.add (JsNum.num a) (JsNum.num b) = JsNum.num (a + b) :=
  rfl

/-- Division of finite JavaScript numbers with nonzero divisor. -/
theorem JsNum.div_num (a b : ℚ) (h : b ≠ 0) :
    JsNum.div (JsNum.num a) (JsNum.num b) = JsNum.num (a / b) := by
  show (if b = 0 then (if a = 0 then JsNum.nan else if a > 0 then JsNum.inf else JsNum.ninf)
      else JsNum.num (a / b)) = JsNum.num (a / b)
  rw [if_neg h]

/-- The variance accumulator stays a nonnegative finite number. -/
theorem variance_fold_num (ms : List MachineState) (a : ℚ) :
    ∀ s : ℚ, 0 ≤ s →
      ∃ t : ℚ, (ms.foldl (fun sum m =>
        JsNum.add sum (JsNum.mul (JsNum.sub (JsNum.num m.currentTime) (JsNum.num a))
          (JsNum.sub (JsNum.num m.currentTime) (JsNum.num a)))) (JsNum.num s)) =
          JsNum.num t ∧ 0 ≤ t := by
  induction ms with
  | nil =>
    intro s hs
    exact ⟨s, rfl, hs⟩
  | cons m ms ih =>
    intro s hs
    rw [List.foldl_cons]
    have hstep : JsNum.add (JsNum.num s)
        (JsNum.mul (JsNum.sub (JsNum.num m.currentTime) (JsNum.num a))
          (JsNum.sub (JsNum.num m.currentTime) (JsNum.num a))) =
        JsNum.num (s + (m.currentTime - a) * (m.currentTime - a)) := rfl
    rw [hstep]
    exact ih _ (by nlinarith [sq_nonneg (m.currentTime - a)])

/-- C4 (amended): for a nonempty machine list and a nonempty field list,
when every field is completed (completion rate 1) the efficiency is a
finite value in the interval from 1/2 to 1 regardless of the time variance,
and when no field is completed (completion rate 0) the efficiency is
exactly 0.  (With no machines the code instead produces NaN, see the
counterexample.) -/
theorem c4_efficiency_bounds (machines : List MachineState) (fieldStates : List FieldWorkState)
    (hm : machines ≠ []) (hf : fieldStates ≠ []) :
    (((fieldStates.filter (fun fs => fs.isCompleted)).length = fieldStates.length →
      ∃ q, calculateEfficiency machines fieldStates = JsNum.num q ∧ 1/2 ≤ q ∧ q ≤ 1)) ∧
    (((fieldStates.filter (fun fs => fs.isCompleted)).length = 0 →
      calculateEfficiency machines fieldStates = JsNum.num 0)) := by
  have hLnat : machines.length ≠ 0 := by
    intro h0
    exact hm (List.eq_nil_of_length_eq_zero h0)
  have hL : ((machines.length : ℚ)) ≠ 0 := by exact_mod_cast hLnat
  have hLpos : (0 : ℚ) < (machines.length : ℚ) := by
    have : 0 < machines.length := Nat.pos_of_ne_zero hLnat
    exact_mod_cast this
  have hTnat : fieldStates.length ≠ 0 := by
    intro h0
    exact hf (List.eq_nil_of_length_eq_zero h0)
  have hT : ((fieldStates.length : ℚ)) ≠ 0 := by exact_mod_cast hTnat
  set S : ℚ := machines.foldl (fun sum m => sum + m.currentTime) 0 with hS
  set a : ℚ := S / (machines.length : ℚ) with ha
  have havg : JsNum.div (JsNum.num S) (JsNum.num (machines.length : ℚ)) = JsNum.num a := by
    rw [JsNum.div_num S _ hL, ← ha]
  have hwhole : calculateEfficiency machines fieldStates =
      JsNum.mul
        (JsNum.div (JsNum.num ((fieldStates.filter (fun fs => fs.isCompleted)).length : ℚ))
          (JsNum.num (fieldStates.length : ℚ)))
        (JsNum.max2 (JsNum.num (1/2))
          (JsNum.sub (JsNum.num 1)
            (JsNum.div
              (JsNum.div
                (machines.foldl (fun sum m =>
                  JsNum.add sum (JsNum.mul
                    (JsNum.sub (JsNum.num m.currentTime)
                      (JsNum.div (JsNum.num S) (JsNum.num (machines.length : ℚ))))
                    (JsNum.sub (JsNum.num m.currentTime)
                      (JsNum.div (JsNum.num S) (JsNum.num (machines.length : ℚ))))))
                  (JsNum.num 0))
                (JsNum.num (machines.length : ℚ)))
              (JsNum.add
                (JsNum.mul (JsNum.div (JsNum.num S) (JsNum.num (machines.length : ℚ)))
                  (JsNum.div (JsNum.num S) (JsNum.num (machines.length : ℚ))))
                (JsNum.num 1))))) := rfl
  rw [havg] at hwhole
  obtain ⟨t, hfold, htpos⟩ := variance_fold_num machines a 0 le_rfl
  rw [hfold] at hwhole
  rw [JsNum.div_num t _ hL] at hwhole
  have hmulaa : JsNum.mul (JsNum.num a) (JsNum.num a) = JsNum.num (a * a) := rfl
  rw [hmulaa] at hwhole
  rw [JsNum.add_num (a * a) 1] at hwhole
  have haa1 : a * a + 1 ≠ 0 := by nlinarith [mul_self_nonneg a]
  rw [JsNum.div_num _ _ haa1] at hwhole
  have hsub : JsNum.sub (JsNum.num 1) (JsNum.num (t / (machines.length : ℚ) / (a * a + 1))) =
      JsNum.num (1 - t / (machines.length : ℚ) / (a * a + 1)) := rfl
  rw [hsub] at hwhole
  have hmax : JsNum.max2 (JsNum.num (1/2))
      (JsNum.num (1 - t / (machines.length : ℚ) / (a * a + 1))) =
      JsNum.num (max (1/2) (1 - t / (machines.length : ℚ) / (a * a + 1))) := rfl
  rw [hmax] at hwhole
  rw [JsNum.div_num _ _ hT] at hwhole
  set B : ℚ := max (1/2) (1 - t / (machines.length : ℚ) / (a * a + 1)) with hB
  have hBlow : 1/2 ≤ B := le_max_left _ _
  have hBhigh : B ≤ 1 := by
    have hvar : 0 ≤ t / (machines.length : ℚ) / (a * a + 1) := by
      have h1 : (0:ℚ) ≤ a * a + 1 := by nlinarith [mul_self_nonneg a]
      exact div_nonneg (div_nonneg htpos hLpos.le) h1
    have h1 : 1 - t / (machines.length : ℚ) / (a * a + 1) ≤ 1 := by linarith
    exact max_le (by norm_num) h1
  constructor
  · intro hc
    have hrate : (((fieldStates.filter (fun fs => fs.isCompleted)).length : ℚ)) =
        ((fieldStates.length : ℚ)) := by exact_mod_cast hc
    rw [hrate] at hwhole
    rw [div_self hT] at hwhole
    have : JsNum.mul (JsNum.num 1) (JsNum.num B) = JsNum.num (1 * B) := rfl
    rw [this, one_mul] at hwhole
    exact ⟨B, hwhole, hBlow, hBhigh⟩
  · intro hc
    have hrate : (((fieldStates.filter (fun fs => fs.isCompleted)).length : ℚ)) = 0 := by
      exact_mod_cast hc
    rw [hrate] at hwhole
    rw [zero_div] at hwhole
    have : JsNum.mul (JsNum.num 0) (JsNum.num B) = JsNum.num (0 * B) := rfl
    rw [this, zero_mul] at hwhole
    exact hwhole

/-- C4 (counterexample): with no machines (as with `machineCount = 0`) and
one incomplete field (completion rate 0), the efficiency computation
divides 0 by 0 and yields NaN, not 0. -/
theorem c4_counterexample :
    calculateEfficiency [] [⟨⟨1, 0, 0, 10, 10⟩, 0, false, none, [], none, []⟩] = JsNum.nan ∧
    JsNum.nan ≠ JsNum.num 0 := by
  exact ⟨rfl, by decide⟩

/-- A one-machine state list for the C4 witness. -/
def c4wMachines : List MachineState := [⟨1, 1, ⟨0, 0⟩, 0, [], [], true⟩]

/-- A one-field completed state list for the C4 witness. -/
def c4wFields : List FieldWorkState := [⟨⟨1, 0, 0, 10, 10⟩, 1, true, none, [], none, []⟩]

/-- Witness for `c4_efficiency_bounds` at concrete nonempty states. -/
theorem c4_efficiency_bounds_witness :
    (((c4wFields.filter (fun fs => fs.isCompleted)).length = c4wFields.length →
      ∃ q, calculateEfficiency c4wMachines c4wFields = JsNum.num q ∧ 1/2 ≤ q ∧ q ≤ 1)) ∧
    (((c4wFields.filter (fun fs => fs.isCompleted)).length = 0 →
      calculateEfficiency c4wMachines c4wFields = JsNum.num 0)) :=
  c4_efficiency_bounds c4wMachines c4wFields (by decide) (by decide)

/-! ### Claim C9: empty field list -/

/-- C9: a request with no fields returns exactly the zero-valued result
with the componentwise-rounded base station and an empty road network —
no error. -/
theorem c9_empty_fields (data : ScheduleRequest) (h : data.fields = []) :
    generateScheduleWithRoadNetwork data =
      { machines := [], totalTime := JsNum.num 0, efficiency := JsNum.num 0,
        totalSupplyEvents := 0, baseStation := snapToGrid data.baseStation,
        roadNetwork := [] } := by
  unfold generateScheduleWithRoadNetwork
  rw [h]
  rfl

/-- The empty-fields request used as the C9 witness (its raw base station
has fractional coordinates, so the rounding is visible). -/
def c9Request : ScheduleRequest :=
  { machineCount := 3, fields := [], baseStation := ⟨3/2, -5/2⟩,
    parameters := ⟨10, 10, 0, 1, 30⟩ }

/-- Witness for `c9_empty_fields` at a concrete request. -/
theorem c9_empty_fields_witness :
    generateScheduleWithRoadNetwork c9Request =
      { machines := [], totalTime := JsNum.num 0, efficiency := JsNum.num 0,
        totalSupplyEvents := 0, baseStation := snapToGrid c9Request.baseStation,
        roadNetwork := [] } :=
  c9_empty_fields c9Request rfl

/-! ### Claim C1: totalTime units -/

/-- `processMachines` does not change the number of machines. -/
theorem processMachines_length (t : ℚ) (gb : Point) (net : List RoadNode) (mc sd : ℚ) :
    ∀ (ms : List MachineState) (fss : List FieldWorkState),
      (processMachines t gb net mc sd ms fss).1.length = ms.length := by
  intro ms
  induction ms with
  | nil =>
    intro fss
    rfl
  | cons m rest ih =>
    intro fss
    unfold processMachines
    by_cases hskip : m.currentTime > t
    · rw [if_pos hskip]
      dsimp only
      rw [List.length_cons, List.length_cons, ih]
    · rw [if_neg hskip]
      cases hfind : findFirstIncomplete fss with
      | none => rfl
      | some p =>
        obtain ⟨idx, fs⟩ := p
        dsimp only
        rw [List.length_cons, List.length_cons, ih]

/-- The scheduling loop does not change the number of machines. -/
theorem simLoop_length (gb : Point) (net : List RoadNode) (mc sd : ℚ) :
    ∀ (fuel k : ℕ) (ms : List MachineState) (fss : List FieldWorkState),
      (simLoop gb net mc sd fuel k ms fss).1.length = ms.length := by
  intro fuel
  induction fuel with
  | zero =>
    intro k ms fss
    rfl
  | succ f ih =>
    intro k ms fss
    unfold simLoop
    by_cases hg : 60 * k < 3600 * 8 ∧ fss.any (fun fs => !fs.isCompleted) = true
    · rw [if_pos hg]
      dsimp only
      rw [ih, processMachines_length]
    · rw [if_neg hg]

/-- With a nonempty field list the pipeline keeps one machine state per
requested machine. -/
theorem schedulePipeline_length (data : ScheduleRequest) (h : data.fields ≠ []) :
    (schedulePipeline data).1.length = data.machineCount := by
  have hne : data.fields.isEmpty = false := by
    cases hl : data.fields with
    | nil => exact absurd hl h
    | cons a l => rfl
  unfold schedulePipeline
  rw [hne]
  rw [if_neg (fun hc => Bool.noConfusion hc)]
  dsimp only
  rw [List.length_map, simLoop_length]
  unfold initMachines
  rw [List.length_map, List.length_range]

/-- C1 (amended): for every request with at least one field and at least
one machine, the result's `totalTime` is the finite value
`(max over machines of the machine's final simulated time) / 60` — the
divisor in the code is 60, not 3600. -/
theorem c1_totalTime (data : ScheduleRequest) (hf : data.fields ≠ [])
    (hm : data.machineCount ≠ 0) :
    ∃ h t, (schedulePipeline data).1.map (fun m => m.currentTime) = h :: t ∧
      (generateScheduleWithRoadNetwork data).totalTime = JsNum.num (t.foldl max h / 60) := by
  have hne : data.fields.isEmpty = false := by
    cases hl : data.fields with
    | nil => exact absurd hl hf
    | cons a l => rfl
  have hlen : (schedulePipeline data).1.length = data.machineCount :=
    schedulePipeline_length data hf
  obtain ⟨m0, rest, hms⟩ : ∃ m0 rest, (schedulePipeline data).1 = m0 :: rest := by
    cases hp : (schedulePipeline data).1 with
    | nil =>
      rw [hp] at hlen
      exact absurd hlen.symm hm
    | cons a b => exact ⟨a, b, rfl⟩
  have htt : (generateScheduleWithRoadNetwork data).totalTime =
      JsNum.div (jsMaxList ((schedulePipeline data).1.map (fun m => m.currentTime)))
        (JsNum.num 60) := by
    unfold generateScheduleWithRoadNetwork
    rw [hne]
    rw [if_neg (fun hc => Bool.noConfusion hc)]
  refine ⟨m0.currentTime, rest.map (fun m => m.currentTime), by rw [hms, List.map_cons], ?_⟩
  rw [htt, hms]
  have hmax : jsMaxList ((m0 :: rest).map (fun m => m.currentTime)) =
      JsNum.num ((rest.map (fun m => m.currentTime)).foldl max m0.currentTime) := rfl
  rw [hmax, JsNum.div_num _ _ (by norm_num)]

/-- A one-tick scenario: one machine of capacity 2 finishes the single
1-by-1 field at once; the final machine time is 901/5 time units. -/
def c1CexRequest : ScheduleRequest :=
  { machineCount := 1, fields := [⟨1, 0, 0, 1, 1⟩], baseStation := ⟨0, 0⟩,
    parameters := ⟨1, 1, 1, 2, 0⟩ }

set_option maxRecDepth 100000 in
set_option maxHeartbeats 4000000 in
/-- C1 (counterexample): on this request the result's `totalTime` is
901/300 (the final time 901/5 divided by 60), which differs from the final
timestamp divided by 3600. -/
theorem c1_counterexample :
    (generateScheduleWithRoadNetwork c1CexRequest).totalTime = JsNum.num (901/300) ∧
    ((generateScheduleWithRoadNetwork c1CexRequest).machines.map
      (fun r => r.path.getLast?.map (fun p => p.timestamp))) = [some (901/5)] ∧
    (901 : ℚ)/300 ≠ (901/5) / 3600 := by decide

/-- Witness for `c1_totalTime` at the one-tick request. -/
theorem c1_totalTime_witness :
    ∃ h t, (schedulePipeline c1CexRequest).1.map (fun m => m.currentTime) = h :: t ∧
      (generateScheduleWithRoadNetwork c1CexRequest).totalTime =
        JsNum.num (t.foldl max h / 60) :=
  c1_totalTime c1CexRequest (by decide) (by decide)

/-! ### Claim C8: loop bound -/

/-- The number of iterations the scheduling loop body runs, mirroring
`simLoop` (same guard, same state evolution). -/
def simLoopCount (gridBaseStation : Point) (roadNetwork : List RoadNode)
    (machineCapacity supplyDuration : ℚ) :
    ℕ → ℕ → List MachineState → List FieldWorkState → ℕ
  | 0, _, _, _ => 0
  | fuel + 1, k, machines, fieldStates =>
    if 60 * k < 3600 * 8 ∧ fieldStates.any (fun fs => !fs.isCompleted) then
      let mf := processMachines (60 * k) gridBaseStation roadNetwork machineCapacity
        supplyDuration machines fieldStates
      simLoopCount gridBaseStation roadNetwork machineCapacity supplyDuration fuel (k + 1)
        mf.1 mf.2 + 1
    else 0

/-- The loop guard `60 k < 3600 * 8` admits at most `480 - k` further
iterations. -/
theorem simLoopCount_le (gb : Point) (net : List RoadNode) (mc sd : ℚ) :
    ∀ (fuel k : ℕ) (ms : List MachineState) (fss : List FieldWorkState),
      simLoopCount gb net mc sd fuel k ms fss ≤ 480 - k := by
  intro fuel
  induction fuel with
  | zero =>
    intro k ms fss
    exact Nat.zero_le _
  | succ f ih =>
    intro k ms fss
    unfold simLoopCount
    by_cases hg : 60 * k < 3600 * 8 ∧ fss.any (fun fs => !fs.isCompleted) = true
    · rw [if_pos hg]
      dsimp only
      have h1 := ih (k + 1) (processMachines (60 * k) gb net mc sd ms fss).1
        (processMachines (60 * k) gb net mc sd ms fss).2
      have hk : k < 480 := by omega
      omega
    · rw [if_neg hg]
      exact Nat.zero_le _

/-- Fuel beyond the 480 guard-admitted ticks never changes the loop's
result. -/
theorem simLoop_fuel_stable (gb : Point) (net : List RoadNode) (mc sd : ℚ) :
    ∀ (fuel extra k : ℕ) (ms : List MachineState) (fss : List FieldWorkState),
      480 ≤ fuel + k →
      simLoop gb net mc sd (fuel + extra) k ms fss = simLoop gb net mc sd fuel k ms fss := by
  intro fuel
  induction fuel with
  | zero =>
    intro extra k ms fss hk
    have hguard : ¬ (60 * k < 3600 * 8 ∧ fss.any (fun fs => !fs.isCompleted) = true) := by
      intro hg
      omega
    cases extra with
    | zero => rfl
    | succ e =>
      have hre : 0 + (e + 1) = e + 1 := by omega
      rw [hre]
      unfold simLoop
      rw [if_neg hguard]
  | succ f ih =>
    intro extra k ms fss hk
    have hre : f + 1 + extra = (f + extra) + 1 := by omega
    rw [hre]
    unfold simLoop
    by_cases hg : 60 * k < 3600 * 8 ∧ fss.any (fun fs => !fs.isCompleted) = true
    · rw [if_pos hg, if_pos hg]
      dsimp only
      exact ih extra (k + 1) _ _ (by omega)
    · rw [if_neg hg, if_neg hg]

/-- C8: starting from tick 0 the scheduling loop executes at most 480
iterations — the fixed 60-unit ticks against the 3600 * 8 ceiling bound
the loop regardless of the machine and field states (including states
where no field can ever complete), and any fuel beyond 480 is never
used. -/
theorem c8_loop_bounded (gb : Point) (net : List RoadNode) (mc sd : ℚ) (extra : ℕ)
    (ms : List MachineState) (fss : List FieldWorkState) :
    simLoopCount gb net mc sd (480 + extra) 0 ms fss ≤ 480 ∧
    simLoop gb net mc sd (480 + extra) 0 ms fss = simLoop gb net mc sd 480 0 ms fss :=
  ⟨simLoopCount_le gb net mc sd (480 + extra) 0 ms fss,
   simLoop_fuel_stable gb net mc sd 480 extra 0 ms fss (by omega)⟩

/-! ### Claim C3: the capacity-0.5 single-field scenario -/

/-- The request of the claimed scenario: one 100 by 80 field, one machine,
machine capacity 0.5, supply duration 30, base station (50, 40). -/
def c3Request : ScheduleRequest :=
  { machineCount := 1, fields := [⟨1, 0, 0, 100, 80⟩], baseStation := ⟨50, 40⟩,
    parameters := ⟨100, 80, 1, 1/2, 30⟩ }

set_option maxRecDepth 100000 in
set_option maxHeartbeats 12000000 in
/-- Full evaluation of the claimed scenario: the run logs two supply
events and two `capacity_full` markers, and the field does complete. -/
theorem c3_run :
    (generateScheduleWithRoadNetwork c3Request).totalSupplyEvents = 2 ∧
    ((generateScheduleWithRoadNetwork c3Request).machines.map
      (fun r => r.path.countP (fun p => p.action = "capacity_full"))) = [2] ∧
    ((schedulePipeline c3Request).2.map (fun fs => fs.isCompleted)) = [true] := by
  decide

/-- C3 (counterexample): the scenario's run has `totalSupplyEvents = 2`,
not the claimed 1. -/
theorem c3_counterexample :
    (generateScheduleWithRoadNetwork c3Request).totalSupplyEvents ≠ 1 := by
  rw [c3_run.1]
  decide

/-- C3 (amended): in the claimed scenario exactly two
`capacity_full`/resupply cycles are logged before the field completes, and
`totalSupplyEvents = 2`. -/
theorem c3_two_supply_cycles :
    (generateScheduleWithRoadNetwork c3Request).totalSupplyEvents = 2 ∧
    ((generateScheduleWithRoadNetwork c3Request).machines.map
      (fun r => r.path.countP (fun p => p.action = "capacity_full"))) = [2] ∧
    ((schedulePipeline c3Request).2.map (fun fs => fs.isCompleted)) = [true] :=
  ⟨c3_run.1, c3_run.2.1, c3_run.2.2⟩

/-! ### Claim C7: field progress invariants -/

/-- The per-field invariant: completed fraction in the unit interval, and
a fraction of at least 0.99 is flagged completed. -/
def fieldInv (fs : FieldWorkState) : Prop :=
  0 ≤ fs.completedPercentage ∧ fs.completedPercentage ≤ 1 ∧
    (99/100 ≤ fs.completedPercentage → fs.isCompleted = true)

/-- Fieldwise evolution: same length, fractions never decrease, and a
completed field's whole work state is frozen. -/
def fieldsEvolve (fss fss' : List FieldWorkState) : Prop :=
  fss'.length = fss.length ∧
  ∀ (i : ℕ) (fs fs' : FieldWorkState), fss[i]? = some fs → fss'[i]? = some fs' →
    fs.completedPercentage ≤ fs'.completedPercentage ∧ (fs.isCompleted = true → fs' = fs)

/-- Evolution is reflexive. -/
theorem fieldsEvolve_refl (fss : List FieldWorkState) : fieldsEvolve fss fss := by
  refine ⟨rfl, fun i fs fs' h h' => ?_⟩
  have heq : fs = fs' := Option.some.inj (h.symm.trans h')
  rw [heq]
  exact ⟨le_refl _, fun _ => rfl⟩

/-- Evolution is transitive. -/
theorem fieldsEvolve_trans {a b c : List FieldWorkState}
    (h1 : fieldsEvolve a b) (h2 : fieldsEvolve b c) : fieldsEvolve a c := by
  obtain ⟨hl1, hp1⟩ := h1
  obtain ⟨hl2, hp2⟩ := h2
  refine ⟨hl2.trans hl1, fun i fs fs' h h' => ?_⟩
  have hia : i < a.length := (List.getElem?_eq_some_iff.mp h).1
  have hib : i < b.length := by omega
  have hex : ∃ x, b[i]? = some x := ⟨b[i], List.getElem?_eq_getElem hib⟩
  obtain ⟨fsm, hm⟩ := hex
  obtain ⟨hle1, hfr1⟩ := hp1 i fs fsm h hm
  obtain ⟨hle2, hfr2⟩ := hp2 i fsm fs' hm h'
  refine ⟨le_trans hle1 hle2, fun hc => ?_⟩
  have hm1 : fsm = fs := hfr1 hc
  rw [hm1] at hfr2
  exact hfr2 hc

/-- The work loop only grows its used-capacity accumulator, by at most one
increment per point. -/
theorem fieldWorkLoop_used (mCap mTime cpp tpp : ℚ) (bs : Point) (net : List RoadNode)
    (hcpp : 0 ≤ cpp) :
    ∀ (pts : List Point) (acc : WorkAcc),
      acc.currentCapacityUsed ≤
        (fieldWorkLoop mCap mTime cpp tpp bs net pts acc).currentCapacityUsed ∧
      (fieldWorkLoop mCap mTime cpp tpp bs net pts acc).currentCapacityUsed ≤
        acc.currentCapacityUsed + pts.length * cpp := by
  intro pts
  induction pts with
  | nil =>
    intro acc
    exact ⟨le_refl _, by simp [fieldWorkLoop]⟩
  | cons p rest ih =>
    intro acc
    unfold fieldWorkLoop
    by_cases hbreak : mCap - (acc.currentCapacityUsed + cpp) < 1/20
    · rw [if_pos hbreak]
      dsimp only
      have hlen : (0 : ℚ) ≤ (rest.length : ℚ) := by positivity
      constructor
      · linarith
      · rw [List.length_cons]
        push_cast
        nlinarith
    · rw [if_neg hbreak]
      have h2 := ih (WorkAcc.mk (acc.currentCapacityUsed + cpp) (acc.workTime + tpp)
        (snapToGrid p)
        (acc.pathSegments ++
          [PathPoint.mk (snapToGrid p).x (snapToGrid p).y (mTime + acc.workTime + tpp)
            "working"])
        (acc.workPath ++ [snapToGrid p]))
      dsimp only at h2
      constructor
      · linarith [h2.1]
      · rw [List.length_cons]
        push_cast
        linarith [h2.2]

/-- The capacity used by one work execution is nonnegative and at most the
field's remaining work. -/
theorem exec_capacityUsed_bounds (m : MachineState) (fs : FieldWorkState) (mc : ℚ)
    (net : List RoadNode) (bs : Point) :
    0 ≤ (executeFieldWorkWithRoadNetwork m fs mc net bs).capacityUsed ∧
    (executeFieldWorkWithRoadNetwork m fs mc net bs).capacityUsed ≤
      max 0 (1 - fs.completedPercentage) := by
  unfold executeFieldWorkWithRoadNetwork
  dsimp only
  by_cases hA : min m.currentCapacity (max 0 (1 - fs.completedPercentage)) ≤ 1/20
  · rw [if_pos hA]
    exact ⟨le_refl 0, le_max_left 0 _⟩
  · rw [if_neg hA]
    have hApos : (0 : ℚ) < min m.currentCapacity (max 0 (1 - fs.completedPercentage)) := by
      by_contra hc
      push_neg at hc
      exact hA (le_trans hc (by norm_num))
    by_cases hwp : (generateContinuousFieldWorkPath fs.field fs.completedPercentage
        (min m.currentCapacity (max 0 (1 - fs.completedPercentage)))).isEmpty
    · rw [if_pos hwp]
      exact ⟨le_refl 0, le_max_left 0 _⟩
    · rw [if_neg hwp]
      dsimp only
      set pts := generateContinuousFieldWorkPath fs.field fs.completedPercentage
        (min m.currentCapacity (max 0 (1 - fs.completedPercentage))) with hpts
      set A := min m.currentCapacity (max 0 (1 - fs.completedPercentage)) with hA2
      have hlenpos : 0 < pts.length := by
        cases hp : pts with
        | nil => rw [hp] at hwp; exact absurd rfl hwp
        | cons a l => simp
      have hlenq : (0 : ℚ) < (pts.length : ℚ) := by exact_mod_cast hlenpos
      have hlen0 : (pts.length : ℚ) ≠ 0 := ne_of_gt hlenq
      have hcpp : 0 ≤ A / (pts.length : ℚ) := le_of_lt (div_pos hApos hlenq)
      constructor
      · refine le_trans ?_ ((fieldWorkLoop_used _ _ _ _ _ _ hcpp pts _).1)
        exact le_of_eq rfl
      · refine le_trans (le_trans ((fieldWorkLoop_used _ _ _ _ _ _ hcpp pts _).2)
          (le_of_eq ?_)) (min_le_right m.currentCapacity _)
        show (0 : ℚ) + (pts.length : ℚ) * (A / (pts.length : ℚ)) = A
        rw [zero_add]
        field_simp

/-- The post-work field update keeps the invariant and never decreases the
completed fraction. -/
theorem machineWork_field (gb : Point) (net : List RoadNode) (mc : ℚ)
    (m : MachineState) (fs : FieldWorkState) (hinv : fieldInv fs) :
    fieldInv (machineWork gb net mc m fs).2 ∧
    fs.completedPercentage ≤ (machineWork gb net mc m fs).2.completedPercentage := by
  obtain ⟨h0, h1, himp⟩ := hinv
  obtain ⟨hu0, hu1⟩ := exec_capacityUsed_bounds m fs mc net gb
  have hmax : max 0 (1 - fs.completedPercentage) = 1 - fs.completedPercentage :=
    max_eq_right (by linarith)
  rw [hmax] at hu1
  unfold machineWork
  dsimp only
  refine ⟨⟨by linarith, by linarith, ?_⟩, by linarith⟩
  intro hge
  rw [if_pos (by exact hge)]

/-- `findFirstIncomplete` only ever returns an incomplete field, together
with its index in the list. -/
theorem findFirstIncomplete_spec :
    ∀ (fss : List FieldWorkState) (idx : ℕ) (fs : FieldWorkState),
      findFirstIncomplete fss = some (idx, fs) →
      fss[idx]? = some fs ∧ fs.isCompleted = false := by
  intro fss
  induction fss with
  | nil =>
    intro idx fs h
    exact absurd h (by simp [findFirstIncomplete])
  | cons a rest ih =>
    intro idx fs h
    unfold findFirstIncomplete at h
    by_cases hc : a.isCompleted = true
    · rw [if_pos hc] at h
      rw [Option.map_eq_some'] at h
      obtain ⟨⟨i0, f0⟩, hp, heq⟩ := h
      rw [Prod.mk.injEq] at heq
      obtain ⟨hi, hf⟩ := heq
      subst hi
      subst hf
      obtain ⟨h1, h2⟩ := ih i0 f0 hp
      exact ⟨by rw [List.getElem?_cons_succ]; exact h1, h2⟩
    · rw [if_neg hc] at h
      have heq := Option.some.inj h
      rw [Prod.mk.injEq] at heq
      obtain ⟨hi, hf⟩ := heq
      subst hi
      subst hf
      refine ⟨List.getElem?_cons_zero, ?_⟩
      cases hab : a.isCompleted with
      | false => rfl
      | true => exact absurd hab hc

/-- Pointwise invariance survives updating one entry with an invariant
value. -/
theorem fieldInv_set {fss : List FieldWorkState} {idx : ℕ} {fs1 : FieldWorkState}
    (hinv : ∀ fs ∈ fss, fieldInv fs) (h1 : fieldInv fs1) :
    ∀ fs ∈ fss.set idx fs1, fieldInv fs := by
  intro fs hmem
  rcases List.mem_or_eq_of_mem_set hmem with hm | he
  · exact hinv fs hm
  · rw [he]
    exact h1

/-- Updating the entry at `idx` with a pointwise-evolved value evolves the
whole list. -/
theorem fieldsEvolve_set {fss : List FieldWorkState} {idx : ℕ} {fs0 fs1 : FieldWorkState}
    (h0 : fss[idx]? = some fs0)
    (hle : fs0.completedPercentage ≤ fs1.completedPercentage)
    (hfr : fs0.isCompleted = true → fs1 = fs0) :
    fieldsEvolve fss (fss.set idx fs1) := by
  refine ⟨List.length_set fss idx fs1, fun i fs fs' h h' => ?_⟩
  by_cases hi : idx = i
  · subst hi
    have hlt : idx < fss.length := (List.getElem?_eq_some_iff.mp h).1
    rw [List.getElem?_set_self hlt] at h'
    have he0 : fs = fs0 := Option.some.inj (h.symm.trans h0)
    have he1 : fs' = fs1 := (Option.some.inj h').symm
    subst he0
    subst he1
    exact ⟨hle, fun hc => (hfr hc).symm ▸ rfl⟩
  · rw [List.getElem?_set_ne hi] at h'
    have he : fs = fs' := Option.some.inj (h.symm.trans h')
    subst he
    exact ⟨le_refl _, fun _ => rfl⟩

/-- One pass over the machines preserves the field invariant and evolves
the field list. -/
theorem processMachines_fields (ct : ℚ) (gb : Point) (net : List RoadNode) (mc sd : ℚ) :
    ∀ (ms : List MachineState) (fss : List FieldWorkState),
      (∀ fs ∈ fss, fieldInv fs) →
      (∀ fs ∈ (processMachines ct gb net mc sd ms fss).2, fieldInv fs) ∧
      fieldsEvolve fss (processMachines ct gb net mc sd ms fss).2 := by
  intro ms
  induction ms with
  | nil =>
    intro fss hinv
    exact ⟨hinv, fieldsEvolve_refl fss⟩
  | cons machine rest ih =>
    intro fss hinv
    unfold processMachines
    by_cases hskip : machine.currentTime > ct
    · rw [if_pos hskip]
      dsimp only
      exact ih fss hinv
    · rw [if_neg hskip]
      cases hfind : findFirstIncomplete fss with
      | none =>
        dsimp only
        exact ⟨hinv, fieldsEvolve_refl fss⟩
      | some p =>
        obtain ⟨idx, af⟩ := p
        dsimp only
        obtain ⟨hat, hcomp⟩ := findFirstIncomplete_spec fss idx af hfind
        have hafinv : fieldInv af := hinv af (List.getElem?_mem hat)
        obtain ⟨hinv1, hle1⟩ :=
          machineWork_field gb net mc (resupplyMachine gb net mc sd machine) af hafinv
        have hfr : af.isCompleted = true →
            (machineWork gb net mc (resupplyMachine gb net mc sd machine) af).2 = af :=
          fun hc => Bool.noConfusion (hcomp.symm.trans hc)
        have hset_inv := @fieldInv_set fss idx _ hinv hinv1
        have hev := fieldsEvolve_set hat hle1 hfr
        obtain ⟨hinv2, hev2⟩ := ih
          (fss.set idx (machineWork gb net mc (resupplyMachine gb net mc sd machine) af).2)
          hset_inv
        exact ⟨hinv2, fieldsEvolve_trans hev hev2⟩

/-- The outer simulation loop preserves the field invariant and evolves the
field list. -/
theorem simLoop_fields (gb : Point) (net : List RoadNode) (mc sd : ℚ) :
    ∀ (fuel k : ℕ) (ms : List MachineState) (fss : List FieldWorkState),
      (∀ fs ∈ fss, fieldInv fs) →
      (∀ fs ∈ (simLoop gb net mc sd fuel k ms fss).2, fieldInv fs) ∧
      fieldsEvolve fss (simLoop gb net mc sd fuel k ms fss).2 := by
  intro fuel
  induction fuel with
  | zero =>
    intro k ms fss hinv
    exact ⟨hinv, fieldsEvolve_refl fss⟩
  | succ n ih =>
    intro k ms fss hinv
    unfold simLoop
    by_cases hg : 60 * k < 3600 * 8 ∧ fss.any (fun fs => !fs.isCompleted) = true
    · rw [if_pos hg]
      dsimp only
      obtain ⟨h1, h2⟩ := processMachines_fields (60 * k) gb net mc sd ms fss hinv
      obtain ⟨h3, h4⟩ := ih (k + 1) (processMachines (60 * k) gb net mc sd ms fss).1
        (processMachines (60 * k) gb net mc sd ms fss).2 h1
      exact ⟨h3, fieldsEvolve_trans h2 h4⟩
    · rw [if_neg hg]
      exact ⟨hinv, fieldsEvolve_refl fss⟩

/-- The initial field states satisfy the invariant. -/
theorem initFieldStates_inv (fields : List Field) :
    ∀ fs ∈ initFieldStates fields, fieldInv fs := by
  intro fs hmem
  unfold initFieldStates at hmem
  obtain ⟨f, _, rfl⟩ := List.mem_map.mp hmem
  exact ⟨le_refl 0, by norm_num, fun h => absurd h (by norm_num)⟩

/-- A concrete field-state list for instantiating the C7 invariants. -/
def c7Fss : List FieldWorkState :=
  [{ field := ⟨1, 0, 0, 10, 10⟩, completedPercentage := 0, isCompleted := false,
     workingMachine := none, assignedMachines := [], lastWorkPosition := none,
     workPath := [] }]

/-- **C7**: throughout the simulation every field's completed fraction stays
in [0, 1] and never decreases, a fraction ≥ 0.99 is flagged completed, a
completed field is never selected for assignment (`findFirstIncomplete`
only returns incomplete fields) and its work state is never mutated again
(the frozen clause of `fieldsEvolve`); the initial field states and the
final pipeline states satisfy the invariant. -/
theorem c7_field_progress (data : ScheduleRequest) (gb : Point) (net : List RoadNode)
    (mc sd : ℚ) (fuel k : ℕ) (ms : List MachineState) (fss : List FieldWorkState)
    (hinv : ∀ fs ∈ fss, fieldInv fs) :
    (∀ fs ∈ initFieldStates data.fields, fieldInv fs) ∧
    (∀ (idx : ℕ) (af : FieldWorkState), findFirstIncomplete fss = some (idx, af) →
      fss[idx]? = some af ∧ af.isCompleted = false) ∧
    (∀ fs ∈ (simLoop gb net mc sd fuel k ms fss).2, fieldInv fs) ∧
    fieldsEvolve fss (simLoop gb net mc sd fuel k ms fss).2 ∧
    (∀ fs ∈ (schedulePipeline data).2, fieldInv fs) := by
  obtain ⟨h1, h2⟩ := simLoop_fields gb net mc sd fuel k ms fss hinv
  refine ⟨initFieldStates_inv data.fields,
    fun idx af h => findFirstIncomplete_spec fss idx af h, h1, h2, ?_⟩
  unfold schedulePipeline
  by_cases he : data.fields.isEmpty
  · rw [if_pos he]
    intro fs h
    exact absurd h (List.not_mem_nil fs)
  · rw [if_neg he]
    dsimp only
    exact (simLoop_fields (snapToGrid data.baseStation) _ _ _ 480 0 _ _
      (initFieldStates_inv data.fields)).1

/-- Witness for C7 at a concrete request and field-state list. -/
theorem c7_field_progress_witness :
    (∀ fs ∈ c7Fss, fieldInv fs) ∧
    ((∀ fs ∈ initFieldStates [⟨1, 0, 0, 10, 10⟩], fieldInv fs) ∧
     (∀ (idx : ℕ) (af : FieldWorkState), findFirstIncomplete c7Fss = some (idx, af) →
       c7Fss[idx]? = some af ∧ af.isCompleted = false) ∧
     (∀ fs ∈ (simLoop ⟨0, 0⟩ [] 1 0 1 0 [] c7Fss).2, fieldInv fs) ∧
     fieldsEvolve c7Fss (simLoop ⟨0, 0⟩ [] 1 0 1 0 [] c7Fss).2 ∧
     (∀ fs ∈ (schedulePipeline ⟨1, [⟨1, 0, 0, 10, 10⟩], ⟨0, 0⟩, ⟨10, 10, 1, 1, 30⟩⟩).2,
       fieldInv fs)) :=
  have hinv : ∀ fs ∈ c7Fss, fieldInv fs := by
    intro fs h
    simp only [c7Fss, List.mem_singleton] at h
    subst h
    exact ⟨le_refl 0, by norm_num, fun hh => absurd hh (by norm_num)⟩
  ⟨hinv,
   c7_field_progress ⟨1, [⟨1, 0, 0, 10, 10⟩], ⟨0, 0⟩, ⟨10, 10, 1, 1, 30⟩⟩ ⟨0, 0⟩ [] 1 0 1 0 []
     c7Fss hinv⟩

/-! ### Claim C10: timestamp monotonicity development -/

/-- Timestamps along a path are nondecreasing in append order. -/
def chainLE (l : List PathPoint) : Prop :=
  List.Chain' (fun p q => p.timestamp ≤ q.timestamp) l

/-- The running path invariant of a machine: the path starts at the snapped
base station at time 0 with action `start`, its timestamps never decrease,
the most recent timestamp is at most the machine clock, and the clock is
nonnegative. -/
def machineOK (bs : Point) (m : MachineState) : Prop :=
  m.path.head? = some ⟨bs.x, bs.y, 0, "start"⟩ ∧ chainLE m.path ∧
  (∀ p ∈ m.path.getLast?, p.timestamp ≤ m.currentTime) ∧ 0 ≤ m.currentTime

/-- Intro rule for a bound over an `Option` membership. -/
theorem forall_mem_some {q : PathPoint} {P : PathPoint → Prop} (h : P q) :
    ∀ p ∈ some q, P p := by
  intro p hp
  rw [Option.mem_def, Option.some.injEq] at hp
  subst hp
  exact h

/-- Appending a point no earlier than the last one preserves the chain. -/
theorem chainLE_append_single {l : List PathPoint} {q : PathPoint} (hc : chainLE l)
    (hlast : ∀ p ∈ l.getLast?, p.timestamp ≤ q.timestamp) : chainLE (l ++ [q]) := by
  refine List.Chain'.append hc (List.chain'_singleton q) ?_
  intro x hx y hy
  simp only [List.head?_cons, Option.mem_def, Option.some.injEq] at hy
  subst hy
  exact hlast x hx

/-- Appending on the right keeps the head of a nonempty path. -/
theorem head?_append_left {l l' : List PathPoint} {a : PathPoint} (h : l.head? = some a) :
    (l ++ l').head? = some a := by
  rw [List.head?_append, h]
  rfl

/-- The road-travel fold shared by `resupplyMachine` and `returnToBase`
preserves the machine path invariant and never rewinds the clock. -/
theorem travel_fold_OK (bs : Point) :
    ∀ (pts : List Point) (m : MachineState), machineOK bs m →
      machineOK bs (pts.foldl
        (fun (m : MachineState) (point : Point) =>
          let travelTime := calculateDistance m.position point / 5
          { m with currentTime := m.currentTime + travelTime, position := point,
                   path := m.path ++ [⟨point.x, point.y, m.currentTime + travelTime,
                     "road_travel"⟩] }) m) ∧
      m.currentTime ≤ (pts.foldl
        (fun (m : MachineState) (point : Point) =>
          let travelTime := calculateDistance m.position point / 5
          { m with currentTime := m.currentTime + travelTime, position := point,
                   path := m.path ++ [⟨point.x, point.y, m.currentTime + travelTime,
                     "road_travel"⟩] }) m).currentTime := by
  intro pts
  induction pts with
  | nil =>
    intro m h
    exact ⟨h, le_refl _⟩
  | cons p rest ih =>
    intro m h
    obtain ⟨hhead, hchain, hlast, hct⟩ := h
    have htt : 0 ≤ calculateDistance m.position p / 5 :=
      div_nonneg (calculateDistance_nonneg _ _) (by norm_num)
    rw [List.foldl_cons]
    dsimp only
    have hOK2 : machineOK bs { m with currentTime := m.currentTime + calculateDistance m.position p / 5, position := p, path := m.path ++ [⟨p.x, p.y, m.currentTime + calculateDistance m.position p / 5, "road_travel"⟩] } := by
      refine ⟨?_, ?_, ?_, ?_⟩
      · dsimp only
        exact head?_append_left hhead
      · dsimp only
        exact chainLE_append_single hchain
          (fun q hq => le_trans (hlast q hq) (by dsimp only; linarith))
      · dsimp only
        rw [List.getLast?_concat]
        exact forall_mem_some (by dsimp only; exact le_refl _)
      · dsimp only
        linarith
    obtain ⟨h1, h2⟩ := ih _ hOK2
    refine ⟨h1, le_trans ?_ h2⟩
    dsimp only
    linarith

/-- Resupplying preserves the machine path invariant when the supply
duration is nonnegative, and never rewinds the clock. -/
theorem resupply_machineOK (bs gb : Point) (net : List RoadNode) (mc sd : ℚ)
    (hsd : 0 ≤ sd) (m : MachineState) (hOK : machineOK bs m) :
    machineOK bs (resupplyMachine gb net mc sd m) ∧
    m.currentTime ≤ (resupplyMachine gb net mc sd m).currentTime := by
  unfold resupplyMachine
  by_cases hc : m.currentCapacity < 1/10
  · rw [if_pos hc]
    obtain ⟨hOK1, hple⟩ :=
      travel_fold_OK bs ((findShortestPath m.position gb net).drop 1) m hOK
    obtain ⟨hhead, hchain, hlast, hct⟩ := hOK1
    dsimp only
    refine ⟨⟨?_, ?_, ?_, ?_⟩, ?_⟩
    · exact head?_append_left (head?_append_left hhead)
    · refine chainLE_append_single (chainLE_append_single hchain ?_) ?_
      · exact fun q hq => le_trans (hlast q hq) (le_refl _)
      · rw [List.getLast?_concat]
        exact forall_mem_some (by dsimp only; linarith)
    · rw [List.getLast?_concat]
      exact forall_mem_some (by dsimp only; exact le_refl _)
    · dsimp only
      linarith
    · dsimp only
      linarith
  · rw [if_neg hc]
    exact ⟨hOK, le_refl _⟩

/-- The final return-to-base pass preserves the machine path invariant. -/
theorem returnToBase_machineOK (bs gb : Point) (net : List RoadNode)
    (m : MachineState) (hOK : machineOK bs m) :
    machineOK bs (returnToBase gb net m) := by
  unfold returnToBase
  by_cases hc : m.position.x ≠ gb.x ∨ m.position.y ≠ gb.y
  · rw [if_pos hc]
    obtain ⟨hOK1, hple⟩ :=
      travel_fold_OK bs ((findShortestPath m.position gb net).drop 1) m hOK
    obtain ⟨hhead, hchain, hlast, hct⟩ := hOK1
    dsimp only
    refine ⟨?_, ?_, ?_, ?_⟩
    · exact head?_append_left hhead
    · exact chainLE_append_single hchain (fun q hq => le_trans (hlast q hq) (le_refl _))
    · rw [List.getLast?_concat]
      exact forall_mem_some (by dsimp only; exact le_refl _)
    · dsimp only
      exact hct
  · rw [if_neg hc]
    exact hOK

/-- The travel fold of `executeFieldWorkWithRoadNetwork` leaves the machine
path alone, advances the clock, and appends chained road-travel segments
whose timestamps lie between `c0` and the final clock. -/
theorem travelPair_fold (c0 : ℚ) :
    ∀ (pts : List Point) (m : MachineState) (segs : List PathPoint),
      chainLE segs → (∀ p ∈ segs.getLast?, p.timestamp ≤ m.currentTime) →
      (∀ p ∈ segs.head?, c0 ≤ p.timestamp) → c0 ≤ m.currentTime →
      (pts.foldl
        (fun (ms : MachineState × List PathPoint) point =>
          let travelTime := calculateDistance ms.1.position point / 5
          let m := { ms.1 with currentTime := ms.1.currentTime + travelTime, position := point }
          let gridPoint := snapToGrid point
          (m, ms.2 ++ [⟨gridPoint.x, gridPoint.y, m.currentTime, "road_travel"⟩]))
        (m, segs)).1.path = m.path ∧
      m.currentTime ≤ (pts.foldl
        (fun (ms : MachineState × List PathPoint) point =>
          let travelTime := calculateDistance ms.1.position point / 5
          let m := { ms.1 with currentTime := ms.1.currentTime + travelTime, position := point }
          let gridPoint := snapToGrid point
          (m, ms.2 ++ [⟨gridPoint.x, gridPoint.y, m.currentTime, "road_travel"⟩]))
        (m, segs)).1.currentTime ∧
      chainLE (pts.foldl
        (fun (ms : MachineState × List PathPoint) point =>
          let travelTime := calculateDistance ms.1.position point / 5
          let m := { ms.1 with currentTime := ms.1.currentTime + travelTime, position := point }
          let gridPoint := snapToGrid point
          (m, ms.2 ++ [⟨gridPoint.x, gridPoint.y, m.currentTime, "road_travel"⟩]))
        (m, segs)).2 ∧
      (∀ p ∈ (pts.foldl
        (fun (ms : MachineState × List PathPoint) point =>
          let travelTime := calculateDistance ms.1.position point / 5
          let m := { ms.1 with currentTime := ms.1.currentTime + travelTime, position := point }
          let gridPoint := snapToGrid point
          (m, ms.2 ++ [⟨gridPoint.x, gridPoint.y, m.currentTime, "road_travel"⟩]))
        (m, segs)).2.getLast?, p.timestamp ≤ (pts.foldl
        (fun (ms : MachineState × List PathPoint) point =>
          let travelTime := calculateDistance ms.1.position point / 5
          let m := { ms.1 with currentTime := ms.1.currentTime + travelTime, position := point }
          let gridPoint := snapToGrid point
          (m, ms.2 ++ [⟨gridPoint.x, gridPoint.y, m.currentTime, "road_travel"⟩]))
        (m, segs)).1.currentTime) ∧
      (∀ p ∈ (pts.foldl
        (fun (ms : MachineState × List PathPoint) point =>
          let travelTime := calculateDistance ms.1.position point / 5
          let m := { ms.1 with currentTime := ms.1.currentTime + travelTime, position := point }
          let gridPoint := snapToGrid point
          (m, ms.2 ++ [⟨gridPoint.x, gridPoint.y, m.currentTime, "road_travel"⟩]))
        (m, segs)).2.head?, c0 ≤ p.timestamp) ∧
      c0 ≤ (pts.foldl
        (fun (ms : MachineState × List PathPoint) point =>
          let travelTime := calculateDistance ms.1.position point / 5
          let m := { ms.1 with currentTime := ms.1.currentTime + travelTime, position := point }
          let gridPoint := snapToGrid point
          (m, ms.2 ++ [⟨gridPoint.x, gridPoint.y, m.currentTime, "road_travel"⟩]))
        (m, segs)).1.currentTime := by
  intro pts
  induction pts with
  | nil =>
    intro m segs hchain hlast hhead hc0
    exact ⟨rfl, le_refl _, hchain, hlast, hhead, hc0⟩
  | cons p rest ih =>
    intro m segs hchain hlast hhead hc0
    rw [List.foldl_cons]
    dsimp only
    have htt : 0 ≤ calculateDistance m.position p / 5 :=
      div_nonneg (calculateDistance_nonneg _ _) (by norm_num)
    have hkey := ih { m with currentTime := m.currentTime + calculateDistance m.position p / 5, position := p } (segs ++ [⟨(snapToGrid p).x, (snapToGrid p).y, m.currentTime + calculateDistance m.position p / 5, "road_travel"⟩])
    dsimp only at hkey
    obtain ⟨k1, k2, k3, k4, k5, k6⟩ := hkey
      (chainLE_append_single hchain (fun q hq => le_trans (hlast q hq) (by linarith)))
      (by rw [List.getLast?_concat]
          exact forall_mem_some (le_refl _))
      (by cases segs with
          | nil =>
            rw [List.nil_append, List.head?_cons]
            exact forall_mem_some
              (by show c0 ≤ m.currentTime + calculateDistance m.position p / 5
                  linarith)
          | cons a l =>
            rw [List.cons_append, List.head?_cons]
            exact forall_mem_some (hhead a (by rw [List.head?_cons]; rfl)))
      (by linarith)
    exact ⟨k1, le_trans (by linarith) k2, k3, k4, k5, k6⟩

/-- The emergency-return fold of the work loop's break branch: the running
return time only grows and the appended segments stay chained between `c0`
and `mTime` plus the running return time. -/
theorem emergency_fold (mTime c0 : ℚ) (gridPoint : Point) :
    ∀ (pts : List Point) (rb : ℚ × List PathPoint),
      chainLE rb.2 → (∀ p ∈ rb.2.getLast?, p.timestamp ≤ mTime + rb.1) →
      (∀ p ∈ rb.2.head?, c0 ≤ p.timestamp) → c0 ≤ mTime + rb.1 →
      chainLE (pts.foldl
        (fun (rb : ℚ × List PathPoint) returnPoint =>
          let segmentTime := calculateDistance gridPoint returnPoint / 5
          let rt := rb.1 + segmentTime
          (rt, rb.2 ++ [⟨returnPoint.x, returnPoint.y, mTime + rt, "emergency_road_travel"⟩]))
        rb).2 ∧
      rb.1 ≤ (pts.foldl
        (fun (rb : ℚ × List PathPoint) returnPoint =>
          let segmentTime := calculateDistance gridPoint returnPoint / 5
          let rt := rb.1 + segmentTime
          (rt, rb.2 ++ [⟨returnPoint.x, returnPoint.y, mTime + rt, "emergency_road_travel"⟩]))
        rb).1 ∧
      (∀ p ∈ (pts.foldl
        (fun (rb : ℚ × List PathPoint) returnPoint =>
          let segmentTime := calculateDistance gridPoint returnPoint / 5
          let rt := rb.1 + segmentTime
          (rt, rb.2 ++ [⟨returnPoint.x, returnPoint.y, mTime + rt, "emergency_road_travel"⟩]))
        rb).2.getLast?, p.timestamp ≤ mTime + (pts.foldl
        (fun (rb : ℚ × List PathPoint) returnPoint =>
          let segmentTime := calculateDistance gridPoint returnPoint / 5
          let rt := rb.1 + segmentTime
          (rt, rb.2 ++ [⟨returnPoint.x, returnPoint.y, mTime + rt, "emergency_road_travel"⟩]))
        rb).1) ∧
      (∀ p ∈ (pts.foldl
        (fun (rb : ℚ × List PathPoint) returnPoint =>
          let segmentTime := calculateDistance gridPoint returnPoint / 5
          let rt := rb.1 + segmentTime
          (rt, rb.2 ++ [⟨returnPoint.x, returnPoint.y, mTime + rt, "emergency_road_travel"⟩]))
        rb).2.head?, c0 ≤ p.timestamp) ∧
      c0 ≤ mTime + (pts.foldl
        (fun (rb : ℚ × List PathPoint) returnPoint =>
          let segmentTime := calculateDistance gridPoint returnPoint / 5
          let rt := rb.1 + segmentTime
          (rt, rb.2 ++ [⟨returnPoint.x, returnPoint.y, mTime + rt, "emergency_road_travel"⟩]))
        rb).1 := by
  intro pts
  induction pts with
  | nil =>
    intro rb hchain hlast hhead hc0
    exact ⟨hchain, le_refl _, hlast, hhead, hc0⟩
  | cons p rest ih =>
    intro rb hchain hlast hhead hc0
    rw [List.foldl_cons]
    dsimp only
    have hst : 0 ≤ calculateDistance gridPoint p / 5 :=
      div_nonneg (calculateDistance_nonneg _ _) (by norm_num)
    have hkey := ih (rb.1 + calculateDistance gridPoint p / 5, rb.2 ++ [⟨p.x, p.y, mTime + (rb.1 + calculateDistance gridPoint p / 5), "emergency_road_travel"⟩])
    dsimp only at hkey
    obtain ⟨k1, k2, k3, k4, k5⟩ := hkey
      (chainLE_append_single hchain (fun q hq => le_trans (hlast q hq) (by linarith)))
      (by rw [List.getLast?_concat]
          exact forall_mem_some (le_refl _))
      (by cases hr : rb.2 with
          | nil =>
            rw [List.nil_append, List.head?_cons]
            exact forall_mem_some
              (by show c0 ≤ mTime + (rb.1 + calculateDistance gridPoint p / 5)
                  linarith)
          | cons a l =>
            rw [hr] at hhead
            rw [List.cons_append, List.head?_cons]
            exact forall_mem_some (hhead a (by rw [List.head?_cons]; rfl)))
      (by linarith)
    exact ⟨k1, le_trans (by linarith) k2, k3, k4, k5⟩

/-- Path facts for the in-field work loop: segments stay chained, the work
time never decreases, the last timestamp is bounded by `mTime` plus the
final work time, and every head timestamp is at least `c0`. -/
theorem fieldWorkLoop_path (mCap mTime cpp tpp c0 : ℚ) (bs : Point) (net : List RoadNode)
    (htpp : 0 ≤ tpp) :
    ∀ (pts : List Point) (acc : WorkAcc),
      chainLE acc.pathSegments →
      (∀ p ∈ acc.pathSegments.getLast?, p.timestamp ≤ mTime + acc.workTime) →
      (∀ p ∈ acc.pathSegments.head?, c0 ≤ p.timestamp) →
      c0 ≤ mTime + acc.workTime →
      chainLE (fieldWorkLoop mCap mTime cpp tpp bs net pts acc).pathSegments ∧
      acc.workTime ≤ (fieldWorkLoop mCap mTime cpp tpp bs net pts acc).workTime ∧
      (∀ p ∈ (fieldWorkLoop mCap mTime cpp tpp bs net pts acc).pathSegments.getLast?,
        p.timestamp ≤ mTime + (fieldWorkLoop mCap mTime cpp tpp bs net pts acc).workTime) ∧
      (∀ p ∈ (fieldWorkLoop mCap mTime cpp tpp bs net pts acc).pathSegments.head?,
        c0 ≤ p.timestamp) ∧
      c0 ≤ mTime + (fieldWorkLoop mCap mTime cpp tpp bs net pts acc).workTime := by
  intro pts
  induction pts with
  | nil =>
    intro acc h1 h2 h3 h4
    exact ⟨h1, le_refl _, h2, h3, h4⟩
  | cons p rest ih =>
    intro acc h1 h2 h3 h4
    unfold fieldWorkLoop
    by_cases hbreak : mCap - (acc.currentCapacityUsed + cpp) < 1/20
    · rw [if_pos hbreak]
      dsimp only
      have hkey := emergency_fold mTime c0 (snapToGrid p)
        ((findShortestPath (snapToGrid p) bs net).drop 1)
        (acc.workTime + tpp, acc.pathSegments ++ [⟨(snapToGrid p).x, (snapToGrid p).y, mTime + acc.workTime + tpp, "capacity_full"⟩])
      dsimp only at hkey
      obtain ⟨k1, k2, k3, k4, k5⟩ := hkey
        (chainLE_append_single h1 (fun q hq => le_trans (h2 q hq)
          (by show mTime + acc.workTime ≤ mTime + acc.workTime + tpp
              linarith)))
        (by rw [List.getLast?_concat]
            exact forall_mem_some
              (by show mTime + acc.workTime + tpp ≤ mTime + (acc.workTime + tpp)
                  linarith))
        (by cases hr : acc.pathSegments with
            | nil =>
              rw [List.nil_append, List.head?_cons]
              exact forall_mem_some
                (by show c0 ≤ mTime + acc.workTime + tpp
                    linarith)
            | cons a l =>
              rw [hr] at h3
              rw [List.cons_append, List.head?_cons]
              exact forall_mem_some (h3 a (by rw [List.head?_cons]; rfl)))
        (by linarith)
      exact ⟨k1, by linarith, k3, k4, k5⟩
    · rw [if_neg hbreak]
      have hkey := ih (WorkAcc.mk (acc.currentCapacityUsed + cpp) (acc.workTime + tpp)
        (snapToGrid p)
        (acc.pathSegments ++
          [PathPoint.mk (snapToGrid p).x (snapToGrid p).y (mTime + acc.workTime + tpp)
            "working"])
        (acc.workPath ++ [snapToGrid p]))
      dsimp only at hkey
      obtain ⟨k1, k2, k3, k4, k5⟩ := hkey
        (chainLE_append_single h1 (fun q hq => le_trans (h2 q hq)
          (by show mTime + acc.workTime ≤ mTime + acc.workTime + tpp
              linarith)))
        (by rw [List.getLast?_concat]
            exact forall_mem_some
              (by show mTime + acc.workTime + tpp ≤ mTime + (acc.workTime + tpp)
                  linarith))
        (by cases hr : acc.pathSegments with
            | nil =>
              rw [List.nil_append, List.head?_cons]
              exact forall_mem_some
                (by show c0 ≤ mTime + acc.workTime + tpp
                    linarith)
            | cons a l =>
              rw [hr] at h3
              rw [List.cons_append, List.head?_cons]
              exact forall_mem_some (h3 a (by rw [List.head?_cons]; rfl)))
        (by linarith)
      exact ⟨k1, by linarith, k3, k4, k5⟩

/-- Prepending to a bounded-head list keeps heads bounded below. -/
theorem head_bound_append {l : List PathPoint} {q : PathPoint} {c0 : ℚ}
    (hl : ∀ p ∈ l.head?, c0 ≤ p.timestamp) (hq : c0 ≤ q.timestamp) :
    ∀ p ∈ (l ++ [q]).head?, c0 ≤ p.timestamp := by
  cases l with
  | nil =>
    rw [List.nil_append, List.head?_cons]
    exact forall_mem_some hq
  | cons a t =>
    rw [List.cons_append, List.head?_cons]
    exact forall_mem_some (hl a (by rw [List.head?_cons]; rfl))

/-- The last element of a concat is the appended point. -/
theorem last_concat_bound {l : List PathPoint} {q : PathPoint} {b : ℚ}
    (hq : q.timestamp ≤ b) : ∀ p ∈ (l ++ [q]).getLast?, p.timestamp ≤ b := by
  rw [List.getLast?_concat]
  exact forall_mem_some hq

/-- Abbreviation (for the proofs only) of the road-travel fold inside
`executeFieldWorkWithRoadNetwork`; definitionally equal to the fold as it
appears there. -/
def execTravel (m : MachineState) (wsp : Point) (net : List RoadNode) :
    MachineState × List PathPoint :=
  ((findShortestPath m.position wsp net).drop 1).foldl
    (fun (ms : MachineState × List PathPoint) point =>
      let travelTime := calculateDistance ms.1.position point / 5
      let m := { ms.1 with currentTime := ms.1.currentTime + travelTime, position := point }
      let gridPoint := snapToGrid point
      (m, ms.2 ++ [⟨gridPoint.x, gridPoint.y, m.currentTime, "road_travel"⟩]))
    (m, [])

/-- Path facts for the travel stage of a work execution. -/
theorem execTravel_facts (m : MachineState) (wsp : Point) (net : List RoadNode) :
    (execTravel m wsp net).1.path = m.path ∧
    m.currentTime ≤ (execTravel m wsp net).1.currentTime ∧
    chainLE (execTravel m wsp net).2 ∧
    (∀ p ∈ (execTravel m wsp net).2.getLast?,
      p.timestamp ≤ (execTravel m wsp net).1.currentTime) ∧
    (∀ p ∈ (execTravel m wsp net).2.head?, m.currentTime ≤ p.timestamp) := by
  have h := travelPair_fold m.currentTime ((findShortestPath m.position wsp net).drop 1) m []
    List.chain'_nil (fun p hp => absurd hp (Option.not_mem_none p))
    (fun p hp => absurd hp (Option.not_mem_none p)) (le_refl _)
  exact ⟨h.1, h.2.1, h.2.2.1, h.2.2.2.1, h.2.2.2.2.1⟩

/-- Path facts for a whole work execution: the machine's stored path is
untouched, the clock only advances, the work time is nonnegative, and the
produced segments are chained with timestamps between the starting clock
and the final clock plus work time. -/
theorem exec_path_facts (m : MachineState) (fs : FieldWorkState) (mc : ℚ)
    (net : List RoadNode) (bs : Point) :
    (executeFieldWorkWithRoadNetwork m fs mc net bs).machine.path = m.path ∧
    m.currentTime ≤ (executeFieldWorkWithRoadNetwork m fs mc net bs).machine.currentTime ∧
    0 ≤ (executeFieldWorkWithRoadNetwork m fs mc net bs).workTime ∧
    chainLE (executeFieldWorkWithRoadNetwork m fs mc net bs).pathSegments ∧
    (∀ p ∈ (executeFieldWorkWithRoadNetwork m fs mc net bs).pathSegments.head?,
      m.currentTime ≤ p.timestamp) ∧
    (∀ p ∈ (executeFieldWorkWithRoadNetwork m fs mc net bs).pathSegments.getLast?,
      p.timestamp ≤ (executeFieldWorkWithRoadNetwork m fs mc net bs).machine.currentTime +
        (executeFieldWorkWithRoadNetwork m fs mc net bs).workTime) := by
  unfold executeFieldWorkWithRoadNetwork
  by_cases hA : min m.currentCapacity (max 0 (1 - fs.completedPercentage)) ≤ 1/20
  · rw [if_pos hA]
    exact ⟨rfl, le_refl _, le_refl _, List.chain'_nil,
      fun p hp => absurd hp (Option.not_mem_none p),
      fun p hp => absurd hp (Option.not_mem_none p)⟩
  · rw [if_neg hA]
    have hApos : (0 : ℚ) < min m.currentCapacity (max 0 (1 - fs.completedPercentage)) := by
      by_contra hcon
      push_neg at hcon
      exact hA (le_trans hcon (by norm_num))
    obtain ⟨e1, e2, e3, e4, e5⟩ := execTravel_facts m
      (selectOptimalFieldEntryPoint fs.field bs fs.lastWorkPosition) net
    dsimp only
    by_cases hwp : (generateContinuousFieldWorkPath fs.field fs.completedPercentage
        (min m.currentCapacity (max 0 (1 - fs.completedPercentage)))).isEmpty
    · rw [if_pos hwp]
      dsimp only
      exact ⟨e1, e2, le_refl _, chainLE_append_single e3 e4,
        head_bound_append e5 e2, last_concat_bound (le_of_eq (add_zero _).symm)⟩
    · rw [if_neg hwp]
      dsimp only
      have htpp : (0 : ℚ) ≤ min m.currentCapacity (max 0 (1 - fs.completedPercentage)) * 180 /
          ((generateContinuousFieldWorkPath fs.field fs.completedPercentage
            (min m.currentCapacity (max 0 (1 - fs.completedPercentage)))).length : ℚ) :=
        div_nonneg (mul_nonneg (le_of_lt hApos) (by norm_num)) (Nat.cast_nonneg _)
      obtain ⟨k1, k2, k3, k4, k5⟩ := fieldWorkLoop_path
        (execTravel m (selectOptimalFieldEntryPoint fs.field bs fs.lastWorkPosition)
          net).1.currentCapacity
        (execTravel m (selectOptimalFieldEntryPoint fs.field bs fs.lastWorkPosition)
          net).1.currentTime
        (min m.currentCapacity (max 0 (1 - fs.completedPercentage)) /
          ((generateContinuousFieldWorkPath fs.field fs.completedPercentage
            (min m.currentCapacity (max 0 (1 - fs.completedPercentage)))).length : ℚ))
        (min m.currentCapacity (max 0 (1 - fs.completedPercentage)) * 180 /
          ((generateContinuousFieldWorkPath fs.field fs.completedPercentage
            (min m.currentCapacity (max 0 (1 - fs.completedPercentage)))).length : ℚ))
        m.currentTime bs net htpp
        (generateContinuousFieldWorkPath fs.field fs.completedPercentage
          (min m.currentCapacity (max 0 (1 - fs.completedPercentage))))
        (WorkAcc.mk 0 0
          (snapToGrid (selectOptimalFieldEntryPoint fs.field bs fs.lastWorkPosition))
          ((execTravel m (selectOptimalFieldEntryPoint fs.field bs fs.lastWorkPosition)
              net).2 ++
            [PathPoint.mk
              (snapToGrid (selectOptimalFieldEntryPoint fs.field bs fs.lastWorkPosition)).x
              (snapToGrid (selectOptimalFieldEntryPoint fs.field bs fs.lastWorkPosition)).y
              (execTravel m (selectOptimalFieldEntryPoint fs.field bs fs.lastWorkPosition)
                net).1.currentTime
              "field_start"])
          [])
        (chainLE_append_single e3 e4)
        (last_concat_bound (le_of_eq (add_zero _).symm))
        (head_bound_append e5 e2)
        (le_trans e2 (le_of_eq (add_zero _).symm))
      exact ⟨e1, e2, le_trans (le_of_eq rfl) k2, k1, k4, k3⟩

/-- Last-element bound for a general append. -/
theorem last_bound_append {l l' : List PathPoint} {b : ℚ}
    (hl : ∀ p ∈ l.getLast?, p.timestamp ≤ b) (hl' : ∀ p ∈ l'.getLast?, p.timestamp ≤ b) :
    ∀ p ∈ (l ++ l').getLast?, p.timestamp ≤ b := by
  rw [List.getLast?_append]
  cases hg : l'.getLast? with
  | none =>
    rw [Option.none_or]
    exact hl
  | some q => exact forall_mem_some (hl' q (by rw [hg]; rfl))

/-- Performing field work preserves the machine path invariant and never
rewinds the clock. -/
theorem machineWork_machineOK (bs gb : Point) (net : List RoadNode) (mc : ℚ)
    (m : MachineState) (fs : FieldWorkState) (hOK : machineOK bs m) :
    machineOK bs (machineWork gb net mc m fs).1 ∧
    m.currentTime ≤ (machineWork gb net mc m fs).1.currentTime := by
  obtain ⟨hhead, hchain, hlast, hct⟩ := hOK
  obtain ⟨x1, x2, x3, x4, x5, x6⟩ := exec_path_facts m fs mc net gb
  unfold machineWork
  dsimp only
  rw [x1]
  refine ⟨⟨?_, ?_, ?_, ?_⟩, ?_⟩
  · exact head?_append_left hhead
  · exact List.Chain'.append hchain x4 (fun p hp q hq => le_trans (hlast p hp) (x5 q hq))
  · exact last_bound_append
      (fun p hp => le_trans (hlast p hp) (le_trans x2 (le_add_of_nonneg_right x3)))
      x6
  · dsimp only
    linarith
  · dsimp only
    linarith

/-- One machine pass of the scheduling loop preserves the machine path
invariant of every machine. -/
theorem processMachines_machines (bs : Point) (ct : ℚ) (gb : Point) (net : List RoadNode)
    (mc sd : ℚ) (hsd : 0 ≤ sd) :
    ∀ (ms : List MachineState) (fss : List FieldWorkState),
      (∀ m ∈ ms, machineOK bs m) →
      ∀ m ∈ (processMachines ct gb net mc sd ms fss).1, machineOK bs m := by
  intro ms
  induction ms with
  | nil =>
    intro fss h m hm
    exact absurd hm (List.not_mem_nil m)
  | cons machine rest ih =>
    intro fss h m hm
    unfold processMachines at hm
    by_cases hskip : machine.currentTime > ct
    · rw [if_pos hskip] at hm
      dsimp only at hm
      rcases List.mem_cons.mp hm with he | hr
      · rw [he]
        exact h machine (List.mem_cons_self machine rest)
      · exact ih fss (fun m' hm' => h m' (List.mem_cons_of_mem _ hm')) m hr
    · rw [if_neg hskip] at hm
      cases hfind : findFirstIncomplete fss with
      | none =>
        rw [hfind] at hm
        dsimp only at hm
        exact h m hm
      | some p =>
        obtain ⟨idx, af⟩ := p
        rw [hfind] at hm
        dsimp only at hm
        rcases List.mem_cons.mp hm with he | hr
        · rw [he]
          exact (machineWork_machineOK bs gb net mc
            (resupplyMachine gb net mc sd machine) af
            (resupply_machineOK bs gb net mc sd hsd machine
              (h machine (List.mem_cons_self machine rest))).1).1
        · exact ih _ (fun m' hm' => h m' (List.mem_cons_of_mem _ hm')) m hr

/-- The outer simulation loop preserves the machine path invariant. -/
theorem simLoop_machines (bs gb : Point) (net : List RoadNode) (mc sd : ℚ) (hsd : 0 ≤ sd) :
    ∀ (fuel k : ℕ) (ms : List MachineState) (fss : List FieldWorkState),
      (∀ m ∈ ms, machineOK bs m) →
      ∀ m ∈ (simLoop gb net mc sd fuel k ms fss).1, machineOK bs m := by
  intro fuel
  induction fuel with
  | zero =>
    intro k ms fss h
    exact h
  | succ n ih =>
    intro k ms fss h
    unfold simLoop
    by_cases hg : 60 * k < 3600 * 8 ∧ fss.any (fun fs => !fs.isCompleted) = true
    · rw [if_pos hg]
      dsimp only
      exact ih (k + 1) _ _ (processMachines_machines bs (60 * k) gb net mc sd hsd ms fss h)
    · rw [if_neg hg]
      exact h

/-- The initial machines satisfy the path invariant at the grid base
station. -/
theorem initMachines_machineOK (n : ℕ) (mc : ℚ) (gb : Point) :
    ∀ m ∈ initMachines n mc gb, machineOK gb m := by
  intro m hm
  unfold initMachines at hm
  obtain ⟨i, _, rfl⟩ := List.mem_map.mp hm
  exact ⟨rfl, List.chain'_singleton _, forall_mem_some (le_refl 0), le_refl 0⟩

/-- Every machine produced by the whole pipeline satisfies the path
invariant, provided the supply duration is nonnegative. -/
theorem schedulePipeline_machineOK (data : ScheduleRequest)
    (hsd : 0 ≤ data.parameters.supplyDuration) :
    ∀ m ∈ (schedulePipeline data).1, machineOK (snapToGrid data.baseStation) m := by
  unfold schedulePipeline
  by_cases he : data.fields.isEmpty
  · rw [if_pos he]
    intro m hm
    exact absurd hm (List.not_mem_nil m)
  · rw [if_neg he]
    dsimp only
    intro m hm
    obtain ⟨m0, hm0, rfl⟩ := List.mem_map.mp hm
    exact returnToBase_machineOK (snapToGrid data.baseStation) (snapToGrid data.baseStation)
      (generateFieldRoadNetwork data.fields (snapToGrid data.baseStation)) m0
      (simLoop_machines (snapToGrid data.baseStation) (snapToGrid data.baseStation)
        (generateFieldRoadNetwork data.fields (snapToGrid data.baseStation))
        data.parameters.machineCapacity data.parameters.supplyDuration hsd 480 0
        (initMachines data.machineCount data.parameters.machineCapacity
          (snapToGrid data.baseStation))
        (initFieldStates data.fields)
        (initMachines_machineOK data.machineCount data.parameters.machineCapacity
          (snapToGrid data.baseStation)) m0 hm0)

/-- A concrete request for instantiating the C10 invariant. -/
def c10Request : ScheduleRequest :=
  { machineCount := 1, fields := [⟨1, 0, 0, 1, 1⟩], baseStation := ⟨0, 0⟩,
    parameters := ⟨1, 1, 1, 2, 0⟩ }

/-- **C10**: for a request with nonnegative supply duration, every machine
route in the generated schedule starts with the snapped base station at
timestamp 0 with action `start`, and the timestamps along its path are
nondecreasing in append order. -/
theorem c10_timestamps (data : ScheduleRequest)
    (hsd : 0 ≤ data.parameters.supplyDuration) :
    ∀ route ∈ (generateScheduleWithRoadNetwork data).machines,
      route.path.head? = some ⟨(snapToGrid data.baseStation).x,
        (snapToGrid data.baseStation).y, 0, "start"⟩ ∧
      chainLE route.path := by
  intro route hroute
  unfold generateScheduleWithRoadNetwork at hroute
  by_cases he : data.fields.isEmpty
  · rw [if_pos he] at hroute
    dsimp only at hroute
    exact absurd hroute (List.not_mem_nil route)
  · rw [if_neg he] at hroute
    dsimp only at hroute
    obtain ⟨m0, hm0, rfl⟩ := List.mem_map.mp hroute
    obtain ⟨h1, h2, _, _⟩ := schedulePipeline_machineOK data hsd m0 hm0
    exact ⟨h1, h2⟩

/-- Witness for C10 at a concrete request. -/
theorem c10_timestamps_witness :
    (0 : ℚ) ≤ c10Request.parameters.supplyDuration ∧
    ∀ route ∈ (generateScheduleWithRoadNetwork c10Request).machines,
      route.path.head? = some ⟨(snapToGrid c10Request.baseStation).x,
        (snapToGrid c10Request.baseStation).y, 0, "start"⟩ ∧
      chainLE route.path :=
  ⟨by decide, c10_timestamps c10Request (by decide)⟩

end Farm
